import Mathlib

/-!
SIKONGAI go-server: the chat gateway of `go-server/main.go`

A shallow embedding of the request dispatcher (`handleChatRequest`,
`sendConcurrentRequests`) and of the upstream caller (`sendSingleRequest`,
`createUniqueRequestBody`, `generateUniqueId`) together with the parts of the Go
standard library they lean on (`encoding/json`, `regexp`, `strconv`, `fmt`).

Conventions.

* Every Go string the functions below inspect has gone through `encoding/json`
  and is therefore valid UTF-8; it is held as a Lean `String`, with `len(s)` being
  the number of bytes of its UTF-8 encoding (`goLen`).
* A string literal or member name of a JSON text is held as written (`Literal`):
  it may spell the escape of an unpaired surrogate or bytes that are not UTF-8,
  which `json.Unmarshal` reads as U+FFFD. A number literal is held as its decimal
  (`Number`), which `json.Unmarshal` reads into a `float64`.
* A `json.RawMessage` is held as the document its bytes spell (`RawMessage.doc`),
  or as raw text when the bytes spell no JSON document (`RawMessage.malformed`).
* `math/rand` is an explicit stream of draws `rnd : Nat → Fin 62`.
* The network and the scheduler are explicit arguments (`Exchange`, arrival order).
-/

namespace SikongAI

/-! ## Go strings -/

/-- Go `len(s)`: the number of bytes of the UTF-8 encoding of `s`. -/
def goLen (s : String) : Nat := s.utf8ByteSize

/-- Helper `contains` of main.go (`strings.Contains`): `substr` occurs in `s`.
On valid UTF-8 an occurrence as bytes is an occurrence as code points. -/
def contains (s substr : String) : Bool := decide (substr.data <:+: s.data)

/-! ## JSON numbers and float64 -/

/-- A JSON number literal: sign, decimal digits and decimal exponent, denoting
`(-1)^neg * digits * 10^exp`. Every JSON number literal has this shape ("1.50" is
`150 * 10^(-2)`, "2e3" is `2 * 10^3`). -/
structure Number where
  neg : Bool
  digits : Nat
  exp : Int
deriving DecidableEq, Repr

/-- An IEEE-754 binary64 value other than NaN and the infinities:
`(-1)^neg * mant * 2^exp` with `mant < 2^53`, `-1074 ≤ exp ≤ 971`, and
`2^52 ≤ mant` unless `exp = -1074`. -/
structure Float64 where
  neg : Bool
  mant : Nat
  exp : Int
deriving DecidableEq, Repr

/-- Removes up to `fuel` trailing decimal zeros from `digits`, raising the exponent. -/
def stripZeros : Nat → Nat → Int → Nat × Int
  | 0, d, e => (d, e)
  | fuel + 1, d, e => if d % 10 = 0 then stripZeros fuel (d / 10) (e + 1) else (d, e)

/-- The canonical spelling of the value of a literal: no trailing zero in the
digits, and zero spelled `0`. Two literals denote the same number exactly when
their canonical spellings are equal. -/
def Number.normalize (n : Number) : Number :=
  if n.digits = 0 then ⟨false, 0, 0⟩
  else
    let r := stripZeros n.digits n.digits n.exp
    ⟨n.neg, r.1, r.2⟩

/-- Number of base-`b` digits of `n`, for `n < b^(2^k)`: the upper half of the
digits is split off while `k` goes down. -/
def numLenAux (b : Nat) : Nat → Nat → Nat
  | 0, n => if n = 0 then 0 else 1
  | k + 1, n =>
    if b ^ 2 ^ k ≤ n then 2 ^ k + numLenAux b k (n / b ^ 2 ^ k) else numLenAux b k n

/-- The least `k` from `k` on with `n < b^(2^k)`, looking at most `fuel` steps ahead. -/
def numLenStart (b n : Nat) : Nat → Nat → Nat
  | 0, k => k
  | fuel + 1, k => if n < b ^ 2 ^ k then k else numLenStart b n fuel (k + 1)

/-- Number of base-`b` digits of `n` (0 for 0), for `b ≥ 2`. -/
def numLen (b n : Nat) : Nat := numLenAux b (numLenStart b n n 0) n

/-- Number of binary digits of `n`. -/
def bitLen (n : Nat) : Nat := numLen 2 n

/-- The quotient `a / b` rounded to the nearest integer, ties to the even one. -/
def roundHalfEven (a b : Nat) : Nat :=
  let q := a / b
  let r := a % b
  if 2 * r < b then q
  else if b < 2 * r then q + 1
  else if q % 2 = 0 then q else q + 1

/-- Whether `2^e ≤ a / b`, for `b > 0`. -/
def geTwoPow (a b : Nat) (e : Int) : Bool :=
  if 0 ≤ e then decide (b * 2 ^ e.toNat ≤ a) else decide (b ≤ a * 2 ^ (-e).toNat)

/-- The integer part of the binary logarithm of `a / b`, for `a, b > 0`. -/
def floorLog2 (a b : Nat) : Int :=
  let e0 : Int := (bitLen a : Int) - (bitLen b : Int)
  if geTwoPow a b e0 then e0 else e0 - 1

/-- Go `strconv.ParseFloat(s, 64)` on a JSON number literal: the nearest binary64
(ties to even mantissa), with gradual underflow; `none` is the range error of a
literal that rounds beyond the largest finite value. -/
def parseFloat (n : Number) : Option Float64 :=
  if n.digits = 0 then some ⟨n.neg, 0, -1074⟩
  else
    let a := if 0 ≤ n.exp then n.digits * 10 ^ n.exp.toNat else n.digits
    let b := if 0 ≤ n.exp then 1 else 10 ^ (-n.exp).toNat
    let x : Int := max (floorLog2 a b) (-1022) - 52
    let m := if 0 ≤ x then roundHalfEven a (b * 2 ^ x.toNat)
             else roundHalfEven (a * 2 ^ (-x).toNat) b
    let m1 := if m = 2 ^ 53 then 2 ^ 52 else m
    let x1 := if m = 2 ^ 53 then x + 1 else x
    if 971 < x1 then none else some ⟨n.neg, m1, x1⟩

/-- The exact decimal expansion of a binary64: `mant * 2^exp` as digits and a
decimal exponent. -/
def Float64.exact (f : Float64) : Number :=
  if 0 ≤ f.exp then ⟨f.neg, f.mant * 2 ^ f.exp.toNat, 0⟩
  else ⟨f.neg, f.mant * 5 ^ (-f.exp).toNat, f.exp⟩

/-- Searches for the shortest decimal that reads back as `f`: `d * 10^e` is the
exact expansion of `|f|`; digits are dropped from the right, most first, and the
first truncation the decimal below (`lo`) or above (`hi`) of which reads back as
`f` is taken, the nearer of the two when both do (ties to the even digit). With
nothing dropped the exact expansion is the answer. -/
def shortestFrom (f : Float64) (d : Nat) (e : Int) : Nat → Number
  | 0 => ⟨f.neg, d, e⟩
  | drop + 1 =>
    let p := 10 ^ (drop + 1)
    let lo : Number := ⟨f.neg, d / p, e + (drop + 1 : Nat)⟩
    let hi : Number := ⟨f.neg, d / p + 1, e + (drop + 1 : Nat)⟩
    let okLo := decide (parseFloat lo = some f)
    let okHi := decide (parseFloat hi = some f)
    if okLo && okHi then
      (if 2 * (d % p) < p then lo
       else if p < 2 * (d % p) then hi
       else if (d / p) % 2 = 0 then lo else hi)
    else if okLo then lo
    else if okHi then hi
    else shortestFrom f d e drop

/-- Go `strconv.FormatFloat(f, fmt, -1, 64)` as `encoding/json` calls it: the
decimal with the fewest digits that `ParseFloat` reads back as `f`. Only the
number denoted matters here, not whether Go spells it in `f` or `e` style. -/
def formatFloat (f : Float64) : Number :=
  if f.mant = 0 then ⟨f.neg, 0, 0⟩
  else
    let x := f.exact
    shortestFrom f x.digits x.exp (numLen 10 x.digits - 1)

/-! ## JSON strings -/

/-- One unit of a JSON string literal as `encoding/json` reads it: a Unicode
scalar value (written directly or as an escape), an escape `\uXXXX` of a surrogate
that has no partner, or a byte that is not part of valid UTF-8. -/
inductive CodeUnit where
  | scalar (c : Char)
  | surrogate (code : Nat)
  | byte (b : Nat)
deriving DecidableEq, Repr

/-- A JSON string literal or member name, as written in the text. -/
abbrev Literal := List CodeUnit

/-- The literal that spells a Go string: `json.Marshal` writes valid UTF-8 only. -/
def Literal.ofString (s : String) : Literal := s.data.map CodeUnit.scalar

/-- The Go string `json.Unmarshal` reads from a literal: an unpaired surrogate
escape and an invalid byte each become U+FFFD. -/
def Literal.decode (l : Literal) : String :=
  String.mk (l.map fun u =>
    match u with
    | .scalar c => c
    | .surrogate _ => Char.ofNat 0xFFFD
    | .byte _ => Char.ofNat 0xFFFD)

/-- A literal without ill-formed units: it spells the string it is read as. -/
def Literal.wellFormed (l : Literal) : Bool :=
  l.all fun u =>
    match u with
    | .scalar _ => true
    | .surrogate _ => false
    | .byte _ => false

/-- A position in a total order of the units in which scalar values stand in
code point order. -/
def CodeUnit.rank : CodeUnit → Nat
  | .scalar c => 3 * c.toNat
  | .surrogate n => 3 * n + 1
  | .byte b => 3 * b + 2

/-- Keys of maps: `sortKey` gives the order of the keys, unit by unit. On Go
strings it is the order of `sort.Strings`, byte by byte, which on UTF-8 is code
point by code point. -/
class SortKey (κ : Type) where
  sortKey : κ → List Nat

instance instSortKeyLiteral : SortKey Literal := ⟨fun l => l.map CodeUnit.rank⟩

instance instSortKeyString : SortKey String :=
  ⟨fun s => (Literal.ofString s).map CodeUnit.rank⟩

/-! ## JSON documents and the values `encoding/json` decodes them to -/

/-- A JSON tree over a number type `ν` and a string type `σ`. An object holds its
members in order. -/
inductive Doc (ν σ : Type) where
  | null
  | bool (b : Bool)
  | num (n : ν)
  | str (s : σ)
  | arr (elems : List (Doc ν σ))
  | obj (members : List (σ × Doc ν σ))

/-- A JSON text as written: number literals and string literals as spelled,
object members in the order of the text, repeated names allowed. -/
abbrev Json := Doc Number Literal

/-- What `json.Unmarshal` stores in an `interface{}`: `nil`, `bool`, `float64`,
`string`, `[]interface{}` (`arr`) and `map[string]interface{}` (`obj`). A Go map is
held as the list of its entries in increasing key order, each key once: the order
in which `json.Marshal` writes them. -/
abbrev Value := Doc Float64 String

instance instInhabitedDoc {ν σ : Type} : Inhabited (Doc ν σ) := ⟨Doc.null⟩

/-- The JSON string literal that spells `s`. -/
def jstr (s : String) : Json := .str (Literal.ofString s)

/-- The object member with the name `k` and the value `v`. -/
def member (k : String) (v : Json) : Literal × Json := (Literal.ofString k, v)

mutual
/-- Decision procedure for equality of trees. -/
def Doc.decEq {ν σ : Type} [DecidableEq ν] [DecidableEq σ] :
    (a b : Doc ν σ) → Decidable (a = b)
  | .null, .null => isTrue rfl
  | .null, .bool _ => isFalse nofun
  | .null, .num _ => isFalse nofun
  | .null, .str _ => isFalse nofun
  | .null, .arr _ => isFalse nofun
  | .null, .obj _ => isFalse nofun
  | .bool _, .null => isFalse nofun
  | .bool x, .bool y =>
    if h : x = y then isTrue (by rw [h]) else isFalse (fun e => h (Doc.bool.inj e))
  | .bool _, .num _ => isFalse nofun
  | .bool _, .str _ => isFalse nofun
  | .bool _, .arr _ => isFalse nofun
  | .bool _, .obj _ => isFalse nofun
  | .num _, .null => isFalse nofun
  | .num _, .bool _ => isFalse nofun
  | .num x, .num y =>
    if h : x = y then isTrue (by rw [h]) else isFalse (fun e => h (Doc.num.inj e))
  | .num _, .str _ => isFalse nofun
  | .num _, .arr _ => isFalse nofun
  | .num _, .obj _ => isFalse nofun
  | .str _, .null => isFalse nofun
  | .str _, .bool _ => isFalse nofun
  | .str _, .num _ => isFalse nofun
  | .str x, .str y =>
    if h : x = y then isTrue (by rw [h]) else isFalse (fun e => h (Doc.str.inj e))
  | .str _, .arr _ => isFalse nofun
  | .str _, .obj _ => isFalse nofun
  | .arr _, .null => isFalse nofun
  | .arr _, .bool _ => isFalse nofun
  | .arr _, .num _ => isFalse nofun
  | .arr _, .str _ => isFalse nofun
  | .arr x, .arr y =>
    match Doc.decEqList x y with
    | isTrue h => isTrue (by rw [h])
    | isFalse h => isFalse (fun e => h (Doc.arr.inj e))
  | .arr _, .obj _ => isFalse nofun
  | .obj _, .null => isFalse nofun
  | .obj _, .bool _ => isFalse nofun
  | .obj _, .num _ => isFalse nofun
  | .obj _, .str _ => isFalse nofun
  | .obj _, .arr _ => isFalse nofun
  | .obj x, .obj y =>
    match Doc.decEqMembers x y with
    | isTrue h => isTrue (by rw [h])
    | isFalse h => isFalse (fun e => h (Doc.obj.inj e))
/-- Decision procedure for equality of lists of trees. -/
def Doc.decEqList {ν σ : Type} [DecidableEq ν] [DecidableEq σ] :
    (a b : List (Doc ν σ)) → Decidable (a = b)
  | [], [] => isTrue rfl
  | [], _ :: _ => isFalse nofun
  | _ :: _, [] => isFalse nofun
  | x :: xs, y :: ys =>
    match Doc.decEq x y, Doc.decEqList xs ys with
    | isTrue h1, isTrue h2 => isTrue (by rw [h1, h2])
    | isFalse h1, _ => isFalse (fun e => h1 (List.cons.inj e).1)
    | _, isFalse h2 => isFalse (fun e => h2 (List.cons.inj e).2)
/-- Decision procedure for equality of member lists. -/
def Doc.decEqMembers {ν σ : Type} [DecidableEq ν] [DecidableEq σ] :
    (a b : List (σ × Doc ν σ)) → Decidable (a = b)
  | [], [] => isTrue rfl
  | [], _ :: _ => isFalse nofun
  | _ :: _, [] => isFalse nofun
  | (k, x) :: xs, (l, y) :: ys =>
    if hk : k = l then
      match Doc.decEq x y, Doc.decEqMembers xs ys with
      | isTrue h1, isTrue h2 => isTrue (by rw [hk, h1, h2])
      | isFalse h1, _ => isFalse (fun e => h1 (Prod.mk.inj (List.cons.inj e).1).2)
      | _, isFalse h2 => isFalse (fun e => h2 (List.cons.inj e).2)
    else isFalse (fun e => hk (Prod.mk.inj (List.cons.inj e).1).1)
end

instance instDecidableEqDoc {ν σ : Type} [DecidableEq ν] [DecidableEq σ] :
    DecidableEq (Doc ν σ) := Doc.decEq

/-- Go map read `m[k]`: the entry under `k`, if any. -/
def mapGet {κ α : Type} [DecidableEq κ] (k : κ) : List (κ × α) → Option α
  | [] => none
  | (k1, v) :: rest => if k = k1 then some v else mapGet k rest

/-- Go map write `m[k] = v`: replaces the entry under `k`, or adds one at its place
in key order. -/
def mapSet {κ α : Type} [DecidableEq κ] [SortKey κ] (k : κ) (v : α) :
    List (κ × α) → List (κ × α)
  | [] => [(k, v)]
  | (k1, v1) :: rest =>
    if k = k1 then (k, v) :: rest
    else if SortKey.sortKey k < SortKey.sortKey k1 then (k, v) :: (k1, v1) :: rest
    else (k1, v1) :: mapSet k v rest

/-- The entry under `k`, when there is one, given the value `v`: how a write
through a shared reference (a slice or a map held inside the map) shows in it. -/
def mapReplace {κ α : Type} [DecidableEq κ] (k : κ) (v : α) : List (κ × α) → List (κ × α)
  | [] => []
  | (k1, v1) :: rest =>
    if k = k1 then (k1, v) :: rest else (k1, v1) :: mapReplace k v rest

mutual
/-- Decoding of a JSON text into an `interface{}` by `json.Unmarshal`: numbers become
`float64`, string literals and member names become Go strings (`Literal.decode`),
objects become maps in which a repeated name keeps its last value. `none` is the
error returned when a number literal is out of the float64 range. -/
def decode : Json → Option Value
  | .null => some .null
  | .bool b => some (.bool b)
  | .num n => (parseFloat n).map Doc.num
  | .str s => some (.str s.decode)
  | .arr xs => (decodeList xs).map Doc.arr
  | .obj ms => (decodeMembers [] ms).map Doc.obj
/-- Decoding of the elements of an array, in order. -/
def decodeList : List Json → Option (List Value)
  | [] => some []
  | x :: xs =>
    match decode x, decodeList xs with
    | some v, some vs => some (v :: vs)
    | _, _ => none
/-- Decoding of the members of an object into the map `acc`, in order. -/
def decodeMembers (acc : List (String × Value)) : List (Literal × Json) →
    Option (List (String × Value))
  | [] => some acc
  | (k, x) :: ms =>
    match decode x with
    | some v => decodeMembers (mapSet k.decode v acc) ms
    | none => none
end

mutual
/-- Encoding of a value by `json.Marshal`: floats in their shortest decimal, map
entries in key order. It cannot fail on a value that `json.Unmarshal` produced. -/
def encode : Value → Json
  | .null => .null
  | .bool b => .bool b
  | .num f => .num (formatFloat f)
  | .str s => .str (Literal.ofString s)
  | .arr xs => .arr (encodeList xs)
  | .obj ms => .obj (encodeMembers ms)
/-- Encoding of the elements of a slice. -/
def encodeList : List Value → List Json
  | [] => []
  | v :: vs => encode v :: encodeList vs
/-- Encoding of the entries of a map. -/
def encodeMembers : List (String × Value) → List (Literal × Json)
  | [] => []
  | (k, v) :: ms => (Literal.ofString k, encode v) :: encodeMembers ms
end

mutual
/-- The JSON value a text denotes, in canonical form: each number in its canonical
spelling, each string as its literal, each object as the map from its names to
their values (a repeated name keeps its last value), entries in key order. Two
texts denote the same JSON value exactly when their canonical forms are equal. -/
def canon : Json → Json
  | .null => .null
  | .bool b => .bool b
  | .num n => .num n.normalize
  | .str s => .str s
  | .arr xs => .arr (canonList xs)
  | .obj ms => .obj (canonMembers [] ms)
/-- Canonical forms of the elements of an array. -/
def canonList : List Json → List Json
  | [] => []
  | x :: xs => canon x :: canonList xs
/-- Canonical form of the members of an object, gathered into the map `acc`. -/
def canonMembers (acc : List (Literal × Json)) : List (Literal × Json) →
    List (Literal × Json)
  | [] => acc
  | (k, x) :: ms => canonMembers (mapSet k (canon x) acc) ms
end

/-- A `json.RawMessage`: bytes that spell a JSON document, or bytes that spell
none (kept as text). -/
inductive RawMessage where
  | malformed (text : String)
  | doc (j : Json)
deriving DecidableEq

/-- The errors of `encoding/json` and of `createUniqueRequestBody`. -/
inductive JsonError where
  | syntaxError
  | typeError
deriving DecidableEq, Repr

/-- Equality of results is decidable when it is on values and on errors. -/
instance instDecidableEqExcept {ε α : Type} [DecidableEq ε] [DecidableEq α] :
    DecidableEq (Except ε α)
  | .ok a, .ok b => if h : a = b then isTrue (by rw [h]) else isFalse (fun e => h (Except.ok.inj e))
  | .error a, .error b =>
    if h : a = b then isTrue (by rw [h]) else isFalse (fun e => h (Except.error.inj e))
  | .ok _, .error _ => isFalse nofun
  | .error _, .ok _ => isFalse nofun

/-- Go `json.Unmarshal(body, &requestData)` with `requestData` a
`map[string]interface{}`: a JSON object gives its map, the literal `null` leaves
the map nil (no error), anything else is an error. -/
def unmarshalMap : RawMessage → Except JsonError (Option (List (String × Value)))
  | .malformed _ => .error .syntaxError
  | .doc .null => .ok none
  | .doc (.obj ms) =>
    match decodeMembers [] ms with
    | some m => .ok (some m)
    | none => .error .typeError
  | .doc _ => .error .typeError

/-! ## The marker pattern (`regexp`) -/

/-- The fixed head of the uniquification marker, up to and including the colon. -/
def markerHead : String := "[请忽略该行内容，唯一随机任务id："

/-- A match of the pattern `\[请忽略该行内容，唯一随机任务id：[^\]]+\]` starting at the
first character of `s`: the number of characters it spans. The class `[^\]]+` is
greedy and excludes only the closing bracket, so the token is everything up to
the next `]`, and there is a match exactly when it is not empty and a `]` follows. -/
def matchAt (s : List Char) : Option Nat :=
  if markerHead.data <+: s then
    let rest := s.drop markerHead.data.length
    let token := rest.takeWhile (fun c => c ≠ ']')
    if token ≠ [] ∧ (rest.drop token.length).head? = some ']' then
      some (markerHead.data.length + token.length + 1)
    else none
  else none

/-- Go `re.MatchString(s)`: the pattern matches somewhere in `s`. -/
def matchString : List Char → Bool
  | [] => false
  | c :: cs => (matchAt (c :: cs)).isSome || matchString cs

/-- The scan of `re.ReplaceAllString`: `skip` characters of the current match are
still to be passed over; otherwise a match starting here is replaced by `repl`
and the scan resumes behind it, and a character that starts no match is copied. -/
def replaceAllAux (repl : List Char) : Nat → List Char → List Char
  | _, [] => []
  | skip + 1, _ :: cs => replaceAllAux repl skip cs
  | 0, c :: cs =>
    match matchAt (c :: cs) with
    | some n => repl ++ replaceAllAux repl (n - 1) cs
    | none => c :: replaceAllAux repl 0 cs

/-- Go `re.ReplaceAllString(src, repl)` for the marker pattern: every match, from
the left and without overlap, is replaced by `repl`. The replacement is taken
literally; Go expands `$` in it, and the replacement built by
`createUniqueRequestBody` has none (see `newMarker_no_dollar`). -/
def replaceAllString (src repl : String) : String :=
  String.mk (replaceAllAux repl.data 0 src.data)

/-! ## Unique ids -/

/-- The alphabet of `generateUniqueId`. -/
def chars : String := "ABCDEFGHIJKLMNOPQRSTUVWXYZabcdefghijklmnopqrstuvwxyz0123456789"

/-- Helper `max` of main.go. -/
def max (a b : Nat) : Nat := if a > b then a else b

/-- Function `generateUniqueId` of main.go. `rnd i` is the value of the `i`-th call
of `rand.Intn(len(chars))`; `contentLength` is an `int` that holds a length. -/
def generateUniqueId (rnd : Nat → Fin 62) (contentLength : Nat) : String :=
  let minLength := 16
  let idLength := if contentLength > 0 then max minLength (contentLength / 2) else minLength
  String.mk ((List.range idLength).map (fun i => chars.data.getD (rnd i).val 'A'))

/-- Decimal digits of `n`, least significant first, at most `fuel` of them. -/
def digitsRev : Nat → Nat → List Char
  | 0, _ => []
  | fuel + 1, n => Nat.digitChar (n % 10) :: (if n / 10 = 0 then [] else digitsRev fuel (n / 10))

/-- Go `fmt.Sprintf("%d", n)` for `n ≥ 0`. -/
def sprintD (n : Nat) : String := String.mk (digitsRev (n + 1) n).reverse

/-- The id that call `requestIndex` puts into the marker:
`generateUniqueId(len(content)) + fmt.Sprintf("_C%d", requestIndex+1)`. The index
is below the concurrency count, so `requestIndex+1` does not overflow. -/
def newId (rnd : Nat → Fin 62) (content : String) (requestIndex : Nat) : String :=
  generateUniqueId rnd (goLen content) ++ ("_C" ++ sprintD (requestIndex + 1))

/-- The replacement text `fmt.Sprintf("[请忽略该行内容，唯一随机任务id：%s]", newId)`. -/
def newMarker (id : String) : String := markerHead ++ id ++ "]"

/-! ## `createUniqueRequestBody` -/

/-- The loop of `createUniqueRequestBody` over the messages, last message first:
an entry that is not an object, whose role is not the string "user", or whose
content is not a string is passed over (`continue`); at the first other entry the
marker, if its content has one, is rewritten, and the loop ends (`break`). -/
def scanMessages (rnd : Nat → Fin 62) (requestIndex : Nat) : List Value → List Value
  | [] => []
  | m :: earlier =>
    match m with
    | .obj message =>
      match mapGet "role" message with
      | some (.str role) =>
        if role ≠ "user" then m :: scanMessages rnd requestIndex earlier
        else
          match mapGet "content" message with
          | some (.str content) =>
            if matchString content.data then
              let id := newId rnd content requestIndex
              let newContent := replaceAllString content (newMarker id)
              .obj (mapSet "content" (.str newContent) message) :: earlier
            else m :: earlier
          | _ => m :: scanMessages rnd requestIndex earlier
      | _ => m :: scanMessages rnd requestIndex earlier
    | _ => m :: scanMessages rnd requestIndex earlier

/-- Function `createUniqueRequestBody` of main.go. The loop writes into the map
of the message, which is the map held by the slice `messages`, which is the
slice held by `requestData`: the write shows in `requestData` under "messages".
`json.Marshal` does not fail on what `json.Unmarshal` produced. -/
def createUniqueRequestBody (rnd : Nat → Fin 62) (originalRequestBody : RawMessage)
    (requestIndex : Nat) : Except JsonError RawMessage :=
  match unmarshalMap originalRequestBody with
  | .error e => .error e
  | .ok none => .ok originalRequestBody
  | .ok (some requestData) =>
    match mapGet "messages" requestData with
    | some (.arr messages) =>
      let messages1 := (scanMessages rnd requestIndex messages.reverse).reverse
      .ok (.doc (encode (.obj (mapReplace "messages" (.arr messages1) requestData))))
    | _ => .ok originalRequestBody

/-! ## Vocabulary for stating what the loop does -/

/-- A user-role message: an object whose `role` is the string "user". -/
def isUserMessage : Value → Bool
  | .obj message => decide (mapGet "role" message = some (.str "user"))
  | _ => false

/-- The content of a message, when the message is an object and its `content` is
a string. -/
def stringContent : Value → Option String
  | .obj message =>
    match mapGet "content" message with
    | some (.str content) => some content
    | _ => none
  | _ => none

/-- A message the loop stops at: a user-role message whose content is a string. -/
def qualifies (m : Value) : Bool := isUserMessage m && (stringContent m).isSome

/-- The messages after the loop of call `requestIndex`, in their order. -/
def rewrittenMessages (rnd : Nat → Fin 62) (requestIndex : Nat) (messages : List Value) :
    List Value :=
  (scanMessages rnd requestIndex messages.reverse).reverse

/-- The `messages` array of a body, when the body is an object that has one. -/
def messagesOf : RawMessage → Option (List Json)
  | .doc (.obj members) =>
    match mapGet (Literal.ofString "messages") members with
    | some (.arr messages) => some messages
    | _ => none
  | _ => none

mutual
/-- Every map inside the value has its entries in strictly increasing key order. -/
def keysSorted : Value → Prop
  | .arr xs => keysSortedList xs
  | .obj ms =>
    ms.Pairwise (fun a b => SortKey.sortKey a.1 < SortKey.sortKey b.1) ∧ keysSortedMembers ms
  | _ => True
/-- Every map inside the elements has its entries in increasing key order. -/
def keysSortedList : List Value → Prop
  | [] => True
  | x :: xs => keysSorted x ∧ keysSortedList xs
/-- Every map inside the entries has its entries in increasing key order. -/
def keysSortedMembers : List (String × Value) → Prop
  | [] => True
  | (_, x) :: ms => keysSorted x ∧ keysSortedMembers ms
end

/-- A body in which the last user-role message has a list as content and an
earlier user-role message carries a marker. -/
def twoUserBody : RawMessage :=
  .doc (.obj [member "messages" (.arr [
    .obj [member "role" (jstr "user"),
          member "content" (jstr "[请忽略该行内容，唯一随机任务id：OLD123]")],
    .obj [member "role" (jstr "user"),
          member "content" (.arr [.obj [member "type" (jstr "text"),
                                        member "text" (jstr "hi")]])]])])

/-- A number literal that comes back as the same number from the float64 it is
read into: `ParseFloat` accepts it, and the shortest decimal of the float denotes
the number the literal denotes. -/
def Number.survives (n : Number) : Bool :=
  match parseFloat n with
  | some f => decide ((formatFloat f).normalize = n.normalize)
  | none => false

mutual
/-- Every number literal of the text survives the float64 round trip. -/
def numbersSurvive : Json → Bool
  | .num n => n.survives
  | .arr xs => numbersSurviveList xs
  | .obj ms => numbersSurviveMembers ms
  | _ => true
/-- Every number literal of the elements survives the float64 round trip. -/
def numbersSurviveList : List Json → Bool
  | [] => true
  | x :: xs => numbersSurvive x && numbersSurviveList xs
/-- Every number literal of the members survives the float64 round trip. -/
def numbersSurviveMembers : List (Literal × Json) → Bool
  | [] => true
  | (_, x) :: ms => numbersSurvive x && numbersSurviveMembers ms
end

mutual
/-- Every string literal and member name of the text is well formed. -/
def stringsWellFormed : Json → Bool
  | .str s => s.wellFormed
  | .arr xs => stringsWellFormedList xs
  | .obj ms => stringsWellFormedMembers ms
  | _ => true
/-- Every string literal and member name of the elements is well formed. -/
def stringsWellFormedList : List Json → Bool
  | [] => true
  | x :: xs => stringsWellFormed x && stringsWellFormedList xs
/-- Every string literal and member name of the members is well formed. -/
def stringsWellFormedMembers : List (Literal × Json) → Bool
  | [] => true
  | (k, x) :: ms => k.wellFormed && stringsWellFormed x && stringsWellFormedMembers ms
end

/-- A body without any marker that carries an integer beyond float64 precision. -/
def bigNumberBody : RawMessage :=
  .doc (.obj [member "messages" (.arr [.obj [member "content" (jstr "hi"),
                                             member "role" (jstr "user")]]),
              member "seed" (.num ⟨false, 10000000000000000001, 0⟩)])

/-- A body without any marker in which a string literal holds the escape of an
unpaired surrogate. -/
def surrogateBody : RawMessage :=
  .doc (.obj [member "messages" (.arr [.obj [member "content" (jstr "hi"),
                                             member "role" (jstr "user")]]),
              member "user" (.str [.scalar 'a', .surrogate 0xD800])])

/-- A body without any marker whose numbers survive the float64 round trip. -/
def plainBody : RawMessage :=
  .doc (.obj [member "temperature" (.num ⟨false, 7, -1⟩),
              member "max_tokens" (.num ⟨false, 100, 0⟩),
              member "messages" (.arr [.obj [member "role" (jstr "user"),
                                             member "content" (jstr "hi")]])])

/-- A body whose last message is a user message that ends in a marker. -/
def markerBody : RawMessage :=
  .doc (.obj [member "model" (jstr "m"), member "messages" (.arr [
    .obj [member "role" (jstr "system"), member "content" (jstr "s")],
    .obj [member "role" (jstr "user"),
          member "content" (jstr "q [请忽略该行内容，唯一随机任务id：OLD123]")]])])

/-- A body like `markerBody` that also carries an integer beyond float64
precision. -/
def markerSeedBody : RawMessage :=
  .doc (.obj [member "messages" (.arr [
      .obj [member "content" (jstr "q [请忽略该行内容，唯一随机任务id：OLD123]"),
            member "role" (jstr "user")]]),
    member "seed" (.num ⟨false, 10000000000000000001, 0⟩)])

/-! ## Requests, outcomes and the transport -/

/-- Struct `APIRequest` of main.go. -/
structure APIRequest where
  BaseURL : String
  APIKey : String
  Organization : String
  RequestBody : RawMessage
  ConcurrentCount : Int
  Headers : List (String × String)
  UserMessageID : String
  RequestTimeout : Int

/-- Struct `RequestResult` of main.go. An absent `Usage` is the empty raw message. -/
structure RequestResult where
  Success : Bool
  Content : String
  Error : String
  RequestIndex : Nat
  Usage : RawMessage
  IsPending : Bool

/-- The zero value of `RequestResult`, as `make([]RequestResult, n)` fills it in. -/
def RequestResult.zero : RequestResult :=
  { Success := false, Content := "", Error := "", RequestIndex := 0,
    Usage := .malformed "", IsPending := false }

/-- Struct `APIResponse` of main.go. -/
structure APIResponse where
  Success : Bool
  Content : String
  Error : String
  Usage : RawMessage
  RequestIndex : Nat
  ConcurrentResults : List RequestResult
  SuccessCount : Nat
  TotalCount : Int
  UserMessageID : String
  IsPartialResult : Bool
  IsFinalResult : Bool

/-- The zero value of `APIResponse`. -/
def APIResponse.zero : APIResponse :=
  { Success := false, Content := "", Error := "", Usage := .malformed "", RequestIndex := 0,
    ConcurrentResults := [], SuccessCount := 0, TotalCount := 0, UserMessageID := "",
    IsPartialResult := false, IsFinalResult := false }

/-- One entry of `choices` in struct `OpenAIResponse`. -/
structure Choice where
  Index : Int
  Role : String
  Content : String
  FinishReason : String

/-- Struct `OpenAIResponse` of main.go. -/
structure OpenAIResponse where
  ID : String
  Object : String
  Created : Int
  Model : String
  Choices : List Choice
  Usage : RawMessage

/-- The HTTP request handed to `client.Do`. -/
structure HTTPRequest where
  url : String
  body : RawMessage
  headers : List (String × String)
  timeout : Int

/-- What the world does with one outbound call: `http.NewRequest` rejects it,
`client.Do` fails, reading the response body fails, or a response arrives with a
status code, a status line and a body, `parsed` being what `json.Unmarshal` makes
of the body as an `OpenAIResponse` (its error when it fails). -/
inductive Exchange where
  | newRequestError (err : String)
  | doError (err : String)
  | readError (err : String)
  | response (statusCode : Nat) (status : String) (body : String)
      (parsed : Except String OpenAIResponse)

/-- Go `Header.Set`: sets the header, replacing an earlier value. -/
def headerSet (key value : String) (h : List (String × String)) : List (String × String) :=
  h.filter (fun kv => kv.1 ≠ key) ++ [(key, value)]

/-- The endpoint URL built at the top of `sendSingleRequest`. Indexing the last
byte of an empty base URL is a run-time panic (`none`). The last byte of a UTF-8
string is `/` exactly when its last character is. -/
def apiURL (baseURL : String) : Option String :=
  match baseURL.data.getLast? with
  | none => none
  | some last =>
    let url1 := if last ≠ '/' then baseURL ++ "/" else baseURL
    let url2 := if !contains url1 "/v1" then url1 ++ "v1/" else url1
    some (url2 ++ "chat/completions")

/-- The body `sendSingleRequest` sends: the result of `createUniqueRequestBody`, or
the original request body when that fails. -/
def uniqueRequestBody (rnd : Nat → Fin 62) (req : APIRequest) (requestIndex : Nat) :
    RawMessage :=
  match createUniqueRequestBody rnd req.RequestBody requestIndex with
  | .ok body => body
  | .error _ => req.RequestBody

/-- The headers `sendSingleRequest` sets, the custom ones last. -/
def requestHeaders (req : APIRequest) : List (String × String) :=
  let h1 := headerSet "Content-Type" "application/json" []
  let h2 := headerSet "Authorization" ("Bearer " ++ req.APIKey) h1
  let h3 := if req.Organization ≠ "" then headerSet "OpenAI-Organization" req.Organization h2
            else h2
  req.Headers.foldl (fun h kv => headerSet kv.1 kv.2 h) h3

/-- The outbound call of `sendSingleRequest`, when the URL can be built. -/
def outbound (rnd : Nat → Fin 62) (req : APIRequest) (requestIndex : Nat) :
    Option HTTPRequest :=
  (apiURL req.BaseURL).map fun url =>
    { url := url, body := uniqueRequestBody rnd req requestIndex,
      headers := requestHeaders req, timeout := req.RequestTimeout }

/-- The return paths of `sendSingleRequest` after the call has been built. -/
def resultOf (requestIndex : Nat) : Exchange → RequestResult
  | .newRequestError err =>
    { RequestResult.zero with Error := "创建请求失败: " ++ err, RequestIndex := requestIndex }
  | .doError err =>
    { RequestResult.zero with Error := "请求失败: " ++ err, RequestIndex := requestIndex }
  | .readError err =>
    { RequestResult.zero with Error := "读取响应失败: " ++ err, RequestIndex := requestIndex }
  | .response statusCode status body parsed =>
    if statusCode ≠ 200 then
      { RequestResult.zero with
        Error := "API请求失败: " ++ sprintD statusCode ++ " " ++ status ++ "\n" ++ body,
        RequestIndex := requestIndex }
    else
      match parsed with
      | .error err =>
        { RequestResult.zero with Error := "解析响应失败: " ++ err, RequestIndex := requestIndex }
      | .ok openaiResp =>
        match openaiResp.Choices with
        | [] =>
          { RequestResult.zero with
            Error := "API响应中没有找到有效的回复内容", RequestIndex := requestIndex }
        | first :: _ =>
          { RequestResult.zero with
            Success := true, Content := first.Content, RequestIndex := requestIndex,
            Usage := openaiResp.Usage }

/-- Function `sendSingleRequest` of main.go. `net` is the world's answer to the
outbound call; `none` is the panic on an empty base URL. -/
def sendSingleRequest (net : HTTPRequest → Exchange) (rnd : Nat → Fin 62) (req : APIRequest)
    (requestIndex : Nat) : Option RequestResult :=
  (outbound rnd req requestIndex).map fun httpReq => resultOf requestIndex (net httpReq)

/-! ## Fan-out and aggregation -/

/-- The counting loop of `sendConcurrentRequests`: the number of successful results
and the first of them (`firstSuccessResult`). -/
def countSuccess (results : List RequestResult) : Nat × Option RequestResult :=
  results.foldl
    (fun st r =>
      if r.Success then (st.1 + 1, if st.2.isNone then some r else st.2) else st)
    (0, none)

/-- The tail of `sendConcurrentRequests`, from the counting loop to the return:
the aggregate response over the collected results. -/
def aggregate (results : List RequestResult) (concurrentCount : Int) : APIResponse :=
  let st := countSuccess results
  let successCount := st.1
  let response : APIResponse :=
    { APIResponse.zero with
      ConcurrentResults := results, SuccessCount := successCount,
      TotalCount := concurrentCount, IsFinalResult := true }
  match decide (successCount > 0), st.2 with
  | true, some firstSuccessResult =>
    { response with
      Success := true, Content := firstSuccessResult.Content,
      Usage := firstSuccessResult.Usage, RequestIndex := firstSuccessResult.RequestIndex }
  | _, _ =>
    { response with
      Success := false,
      Error := match results with
        | first :: _ => first.Error
        | [] => "所有并发请求都失败了" }

/-- The goroutines of `sendConcurrentRequests`: goroutine `index` computes
`sendSingleRequest(req, index)`. A panic in one of them ends the process
(`none`). -/
def goroutines (net : HTTPRequest → Exchange) (rnd : Nat → Nat → Fin 62) (req : APIRequest) :
    List Nat → Option (List RequestResult)
  | [] => some []
  | index :: later =>
    match sendSingleRequest net (rnd index) req index, goroutines net rnd req later with
    | some result, some results => some (result :: results)
    | _, _ => none

/-- The items received from `resultChan` when the goroutines finish in the order
`order`: the result of each goroutine together with its index. -/
def arrivals (outcomes : List RequestResult) (order : List Nat) : List (RequestResult × Nat) :=
  order.filterMap fun index => (outcomes.get? index).map fun result => (result, index)

/-- The collecting loop `results[item.index] = item.result` over the channel,
starting from `make([]RequestResult, n)`. -/
def collect (n : Nat) (items : List (RequestResult × Nat)) : List RequestResult :=
  items.foldl (fun results item => results.set item.2 item.1)
    (List.replicate n RequestResult.zero)

/-- Function `sendConcurrentRequests` of main.go. One goroutine per index below
the concurrency count; `order` is the order in which they deliver their items,
a permutation of the indices chosen by the scheduler. `make` with a negative
length panics (`none`). -/
def sendConcurrentRequests (net : HTTPRequest → Exchange) (rnd : Nat → Nat → Fin 62)
    (order : List Nat) (req : APIRequest) : Option APIResponse :=
  if req.ConcurrentCount < 0 then none
  else
    let n := req.ConcurrentCount.toNat
    (goroutines net rnd req (List.range n)).map fun outcomes =>
      aggregate (collect n (arrivals outcomes order)) req.ConcurrentCount

/-! ## The handler -/

/-- What `handleChatRequest` answers: the HTTP status and the JSON payload. -/
structure Handled where
  status : Nat
  response : APIResponse

/-- The defaults `handleChatRequest` fills in: concurrency 1 and a timeout of 30
seconds when the request gives none above zero. -/
def withDefaults (req0 : APIRequest) : APIRequest :=
  let req1 := if req0.ConcurrentCount ≤ 0 then { req0 with ConcurrentCount := 1 } else req0
  if req1.RequestTimeout ≤ 0 then { req1 with RequestTimeout := 30 } else req1

/-- The body of `handleChatRequest` of main.go over the two functions it calls:
`single` stands for `sendSingleRequest` and `concurrent` for
`sendConcurrentRequests`, each with whatever effect `m` its call has (a panic, a
call of the upstream). The handler has no other way to the upstream. `bound` is
the outcome of `c.ShouldBindJSON(&req)`. -/
def handleChatRequestWith {m : Type → Type} [Monad m]
    (single : APIRequest → Nat → m RequestResult) (concurrent : APIRequest → m APIResponse)
    (bound : Except String APIRequest) : m Handled :=
  match bound with
  | .error err =>
    pure { status := 400,
           response := { APIResponse.zero with Success := false,
                                               Error := "请求参数错误: " ++ err } }
  | .ok req0 =>
    if req0.BaseURL = "" then
      pure { status := 400,
             response := { APIResponse.zero with Success := false, Error := "BaseURL不能为空" } }
    else if req0.APIKey = "" then
      pure { status := 400,
             response := { APIResponse.zero with Success := false, Error := "APIKey不能为空" } }
    else
      let req := withDefaults req0
      if req.ConcurrentCount = 1 then
        single req 0 >>= fun result =>
          pure { status := if result.Success then 200 else 500,
                 response := { APIResponse.zero with
                   Success := result.Success, Content := result.Content,
                   Error := result.Error, Usage := result.Usage,
                   RequestIndex := result.RequestIndex,
                   UserMessageID := req.UserMessageID } }
      else
        concurrent req >>= fun response0 =>
          let response := { response0 with UserMessageID := req.UserMessageID }
          pure { status := if response.SuccessCount > 0 then 200 else 500,
                 response := response }

/-- Function `handleChatRequest` of main.go: the handler over `sendSingleRequest`
and `sendConcurrentRequests`, a panic in either being its only effect. -/
def handleChatRequest (net : HTTPRequest → Exchange) (rnd : Nat → Nat → Fin 62)
    (order : List Nat) (bound : Except String APIRequest) : Option Handled :=
  handleChatRequestWith (fun req requestIndex => sendSingleRequest net (rnd 0) req requestIndex)
    (fun req => sendConcurrentRequests net rnd order req) bound

/-- A call that is recorded: when the function is entered with the request
`req`, the request is added to the record of calls. -/
def recorded {α : Type} (req : APIRequest) (call : Option α) :
    StateT (List APIRequest) Option α :=
  fun calls => call.map fun a => (a, calls ++ [req])

/-- The handler with every call of `sendSingleRequest` and of
`sendConcurrentRequests` recorded, started with an empty record: the answer, and
the requests the two functions were called with. -/
def handleChatRequestRecorded (net : HTTPRequest → Exchange) (rnd : Nat → Nat → Fin 62)
    (order : List Nat) (bound : Except String APIRequest) :
    Option (Handled × List APIRequest) :=
  (handleChatRequestWith
    (fun req requestIndex => recorded req (sendSingleRequest net (rnd 0) req requestIndex))
    (fun req => recorded req (sendConcurrentRequests net rnd order req)) bound).run []

/-! ## URL construction -/

theorem data_ne_nil_of_ne_empty (b : String) (hb : b ≠ "") : b.data ≠ [] := by
  intro h
  apply hb
  cases b
  simp_all

theorem getLast_slash_iff (l : List Char) :
    l.getLast? = some '/' ↔ ['/'] <:+ l := by
  rw [List.getLast?_eq_some_iff]
  constructor
  · rintro ⟨ys, rfl⟩
    exact ⟨ys, rfl⟩
  · rintro ⟨ys, h⟩
    exact ⟨ys, h.symm⟩

/-- Claim C3: the endpoint built from a non-empty base URL `b` is `b`, then "/"
unless `b` ends in "/", then "v1/" unless the string so far contains "/v1", then
"chat/completions"; "https://x.com" and "https://x.com/v1" both give
"https://x.com/v1/chat/completions". -/
theorem apiURL_spec (b : String) (hb : b ≠ "") :
    apiURL b =
        some (b ++ (if "/".data <:+ b.data then "" else "/")
          ++ (if "/v1".data <:+: (b ++ (if "/".data <:+ b.data then "" else "/")).data
              then "" else "v1/")
          ++ "chat/completions") ∧
      apiURL "https://x.com" = some "https://x.com/v1/chat/completions" ∧
      apiURL "https://x.com/v1" = some "https://x.com/v1/chat/completions" ∧
      apiURL "https://x.com/v1" ≠ some "https://x.com/v1chat/completions" := by
  refine ⟨?_, by decide, by decide, by decide⟩
  have hne := data_ne_nil_of_ne_empty b hb
  unfold apiURL
  cases hl : b.data.getLast? with
  | none => exact absurd (List.getLast?_eq_none_iff.mp hl) hne
  | some last =>
    have hsl : ("/".data <:+ b.data) ↔ last = '/' := by
      rw [show "/".data = ['/'] from rfl, ← getLast_slash_iff, hl]
      simp
    by_cases h1 : last = '/'
    · have h1s : "/".data <:+ b.data := hsl.mpr h1
      simp only [h1, ne_eq, not_true_eq_false, if_false, if_true, h1s, String.append_empty,
        contains]
      split_ifs <;> simp_all
    · have h1s : ¬ "/".data <:+ b.data := fun h => h1 (hsl.mp h)
      simp only [h1, ne_eq, not_false_eq_true, if_true, h1s, if_false, contains]
      split_ifs <;> simp_all

/-- Witness of `apiURL_spec` at the base URL "https://api.example.com/". -/
theorem apiURL_spec_witness :
    apiURL "https://api.example.com/" = some "https://api.example.com/v1/chat/completions" := by
  have h := (apiURL_spec "https://api.example.com/" (by decide)).1
  rw [h]
  decide

theorem infix_of_infix_append_singleton {p l : List Char} {c : Char}
    (hp : p.getLast? ≠ some c) (hne : p ≠ []) (h : p <:+: l ++ [c]) : p <:+: l := by
  obtain ⟨s, t, hst⟩ := h
  rcases List.eq_nil_or_concat t with rfl | ⟨t1, d, rfl⟩
  · exfalso
    apply hp
    rw [List.append_nil] at hst
    obtain ⟨q, e, rfl⟩ := List.eq_nil_or_concat p |>.resolve_left hne
    have h2 : (s ++ q) ++ [e] = l ++ [c] := by simpa [List.append_assoc] using hst
    have h3 := List.append_inj' h2 rfl
    simp only [List.cons.injEq, and_true] at h3
    simp [h3.2]
  · have h2 : (s ++ p ++ t1) ++ [d] = l ++ [c] := by simpa [List.append_assoc] using hst
    have h3 := List.append_inj' h2 rfl
    exact ⟨s, t1, h3.1⟩

/-- Claim C6, as amended: a non-empty base URL that does not contain the text
"/v1" gets "v1/" put before "chat/completions", so that its endpoint ends with
"/v1/chat/completions". -/
theorem apiURL_appends_v1 (b : String) (hb : b ≠ "") (hv : ¬ "/v1".data <:+: b.data) :
    ∃ u, apiURL b = some u ∧ "/v1/chat/completions".data <:+ u.data := by
  have hne := data_ne_nil_of_ne_empty b hb
  unfold apiURL
  cases hl : b.data.getLast? with
  | none => exact absurd (List.getLast?_eq_none_iff.mp hl) hne
  | some last =>
    obtain ⟨front, hfront⟩ := List.getLast?_eq_some_iff.mp hl
    by_cases h1 : last = '/'
    · subst h1
      have hc : contains b "/v1" = false := by simp [contains, hv]
      refine ⟨_, rfl, ?_⟩
      simp only [ne_eq, not_true_eq_false, if_false, hc, Bool.not_false, if_true,
        String.data_append, hfront]
      exact ⟨front, by simp⟩
    · have hv2 : ¬ "/v1".data <:+: (b ++ "/").data := by
        intro h
        apply hv
        refine infix_of_infix_append_singleton (c := '/') (by decide) (by decide) ?_
        simpa using h
      have hc : contains (b ++ "/") "/v1" = false := by
        unfold contains
        exact decide_eq_false hv2
      refine ⟨_, rfl, ?_⟩
      simp only [ne_eq, h1, not_false_eq_true, if_true, hc, Bool.not_false,
        String.data_append]
      exact ⟨b.data, by simp⟩

/-- Witness of `apiURL_appends_v1` at the base URL "https://x.com". -/
theorem apiURL_appends_v1_witness :
    ∃ u, apiURL "https://x.com" = some u ∧ "/v1/chat/completions".data <:+ u.data :=
  apiURL_appends_v1 "https://x.com" (by decide) (by decide)

/-- Claim C6 fails at its own example: "https://v1.example.com" has "v1" in the
host name only, and its endpoint is "https://v1.example.com/chat/completions",
which does not end with "/v1/chat/completions". -/
theorem apiURL_host_v1_counterexample :
    apiURL "https://v1.example.com" = some "https://v1.example.com/chat/completions" ∧
      ¬ "/v1/chat/completions".data <:+ "https://v1.example.com/chat/completions".data := by
  decide

/-! ## Aggregation -/

theorem countSuccess_fold (results : List RequestResult) (c : Nat) (f : Option RequestResult) :
    results.foldl
        (fun st r =>
          if r.Success then (st.1 + 1, if st.2.isNone then some r else st.2) else st)
        (c, f)
      = (c + results.countP (fun r => r.Success),
          f.orElse fun _ => results.find? (fun r => r.Success)) := by
  induction results generalizing c f with
  | nil => cases f <;> simp [Option.orElse]
  | cons r rs ih =>
    rw [List.foldl_cons]
    by_cases hr : r.Success = true
    · simp only [hr, if_true, ih, List.countP_cons_of_pos, List.find?_cons_of_pos]
      cases f <;> simp [Option.orElse] <;> omega
    · simp only [hr, if_false, ih, Bool.false_eq_true]
      rw [List.countP_cons_of_neg _ _ (by simpa using hr),
        List.find?_cons_of_neg _ (by simpa using hr)]

theorem countSuccess_eq (results : List RequestResult) :
    countSuccess results
      = (results.countP (fun r => r.Success), results.find? (fun r => r.Success)) := by
  unfold countSuccess
  rw [countSuccess_fold]
  simp [Option.orElse]

theorem find_first_index (results : List RequestResult) (r : RequestResult)
    (h : results.find? (fun r => r.Success) = some r) :
    ∃ i, results.get? i = some r ∧ r.Success = true ∧
      ∀ j, j < i → ∀ q, results.get? j = some q → q.Success = false := by
  obtain ⟨hp, as, bs, rfl, has⟩ := List.find?_eq_some.mp h
  refine ⟨as.length, ?_, hp, ?_⟩
  · rw [List.get?_eq_getElem?, List.getElem?_append_right (Nat.le_refl _)]
    simp
  intro j hj q hq
  have hq2 : as.get? j = some q := by
    rw [List.get?_eq_getElem?, List.getElem?_append_left hj] at hq
    rw [List.get?_eq_getElem?]
    exact hq
  have hmem : q ∈ as := List.get?_mem hq2
  simpa using has q hmem

/-! ## Call indices and result order -/

theorem resultOf_requestIndex (i : Nat) (ex : Exchange) : (resultOf i ex).RequestIndex = i := by
  cases ex with
  | newRequestError err => rfl
  | doError err => rfl
  | readError err => rfl
  | response statusCode status body parsed =>
    simp only [resultOf]
    split_ifs
    · rfl
    · cases parsed with
      | error err => rfl
      | ok openaiResp =>
        cases hch : openaiResp.Choices with
        | nil => simp only [hch]
        | cons first rest => simp only [hch]

theorem sendSingleRequest_requestIndex (net : HTTPRequest → Exchange) (rnd : Nat → Fin 62)
    (req : APIRequest) (i : Nat) (r : RequestResult)
    (h : sendSingleRequest net rnd req i = some r) : r.RequestIndex = i := by
  unfold sendSingleRequest at h
  cases ho : outbound rnd req i with
  | none => simp [ho] at h
  | some httpReq =>
    simp only [ho, Option.map_some', Option.some.injEq] at h
    rw [← h]
    exact resultOf_requestIndex i _

theorem apiURL_isSome (b : String) (hb : b ≠ "") : (apiURL b).isSome = true := by
  unfold apiURL
  cases hl : b.data.getLast? with
  | none => exact absurd (List.getLast?_eq_none_iff.mp hl) (data_ne_nil_of_ne_empty b hb)
  | some last => rfl

theorem sendSingleRequest_isSome (net : HTTPRequest → Exchange) (rnd : Nat → Fin 62)
    (req : APIRequest) (i : Nat) (hb : req.BaseURL ≠ "") :
    ∃ r, sendSingleRequest net rnd req i = some r := by
  have h := apiURL_isSome req.BaseURL hb
  obtain ⟨url, hurl⟩ := Option.isSome_iff_exists.mp h
  rw [sendSingleRequest, outbound, hurl]
  exact ⟨_, rfl⟩

theorem goroutines_spec (net : HTTPRequest → Exchange) (rnd : Nat → Nat → Fin 62)
    (req : APIRequest) (hb : req.BaseURL ≠ "") (is : List Nat) :
    ∃ outs, goroutines net rnd req is = some outs ∧ outs.length = is.length ∧
      ∀ k i, is.get? k = some i →
        ∃ r, outs.get? k = some r ∧ sendSingleRequest net (rnd i) req i = some r := by
  induction is with
  | nil => exact ⟨[], rfl, rfl, by simp⟩
  | cons i rest ih =>
    obtain ⟨outs, hg, hl, hk⟩ := ih
    obtain ⟨r, hr⟩ := sendSingleRequest_isSome net (rnd i) req i hb
    refine ⟨r :: outs, by simp [goroutines, hr, hg], by simp [hl], ?_⟩
    intro k j hj
    cases k with
    | zero =>
      simp only [List.get?_cons_zero, Option.some.injEq] at hj
      subst hj
      exact ⟨r, rfl, hr⟩
    | succ k => exact hk k j (by simpa using hj)

theorem arrivals_cons (outcomes : List RequestResult) (i : Nat) (rest : List Nat)
    (r : RequestResult) (hi : outcomes.get? i = some r) :
    arrivals outcomes (i :: rest) = (r, i) :: arrivals outcomes rest := by
  unfold arrivals
  rw [List.filterMap_cons, hi]
  rfl

theorem collect_fold (outcomes : List RequestResult) (order : List Nat)
    (hlt : ∀ i ∈ order, i < outcomes.length) (acc : List RequestResult)
    (hacc : acc.length = outcomes.length) :
    ((arrivals outcomes order).foldl (fun results item => results.set item.2 item.1) acc).length
        = outcomes.length ∧
      ∀ i, ((arrivals outcomes order).foldl
              (fun results item => results.set item.2 item.1) acc).get? i
            = if i ∈ order then outcomes.get? i else acc.get? i := by
  induction order generalizing acc with
  | nil => simp [arrivals, hacc]
  | cons j rest ih =>
    have hj : j < outcomes.length := hlt j (List.mem_cons_self _ _)
    have hget : outcomes.get? j = some (outcomes.get ⟨j, hj⟩) := List.get?_eq_get hj
    rw [arrivals_cons outcomes j rest _ hget, List.foldl_cons]
    have hrest : ∀ i ∈ rest, i < outcomes.length :=
      fun i hi => hlt i (List.mem_cons_of_mem _ hi)
    obtain ⟨hl, hg⟩ := ih hrest (acc.set j (outcomes.get ⟨j, hj⟩)) (by simp [hacc])
    refine ⟨hl, ?_⟩
    intro i
    rw [hg i]
    by_cases hir : i ∈ rest
    · simp [hir]
    · simp only [hir, if_false, List.mem_cons, or_false]
      by_cases hij : i = j
      · subst hij
        simp only [if_true]
        rw [List.get?_eq_getElem?, List.getElem?_set_self (by omega), hget]
      · simp only [hij, if_false]
        rw [List.get?_eq_getElem?, List.get?_eq_getElem?, List.getElem?_set_ne (Ne.symm hij)]

theorem collect_arrivals (outcomes : List RequestResult) (order : List Nat)
    (hperm : order.Perm (List.range outcomes.length)) :
    collect outcomes.length (arrivals outcomes order) = outcomes := by
  have hlt : ∀ i ∈ order, i < outcomes.length := by
    intro i hi
    exact List.mem_range.mp ((hperm.mem_iff).mp hi)
  obtain ⟨hl, hg⟩ := collect_fold outcomes order hlt
    (List.replicate outcomes.length RequestResult.zero) (by simp)
  apply List.ext_get?
  intro i
  unfold collect
  rw [hg i]
  by_cases hi : i < outcomes.length
  · have : i ∈ order := (hperm.mem_iff).mpr (List.mem_range.mpr hi)
    simp [this]
  · have hno : i ∉ order := fun h => hi (hlt i h)
    simp only [hno, if_false]
    rw [List.get?_eq_none.mpr (by simpa using hi), List.get?_eq_none.mpr (by omega)]

theorem sendConcurrentRequests_eq (net : HTTPRequest → Exchange) (rnd : Nat → Nat → Fin 62)
    (order : List Nat) (req : APIRequest) (N : Nat) (hc : req.ConcurrentCount = N)
    (hb : req.BaseURL ≠ "") (hperm : order.Perm (List.range N)) :
    ∃ outcomes, goroutines net rnd req (List.range N) = some outcomes ∧
      outcomes.length = N ∧
      (∀ i, i < N → ∃ r, outcomes.get? i = some r ∧
        sendSingleRequest net (rnd i) req i = some r) ∧
      sendConcurrentRequests net rnd order req = some (aggregate outcomes N) := by
  obtain ⟨outs, hg, hl, hk⟩ := goroutines_spec net rnd req hb (List.range N)
  have hlen : outs.length = N := by simpa using hl
  refine ⟨outs, hg, hlen, ?_, ?_⟩
  · intro i hi
    exact hk i i (by simp [List.get?_eq_getElem?, List.getElem?_range hi])
  · unfold sendConcurrentRequests
    have hnn : ¬ ((N : Int) < 0) := by omega
    simp only [hc, hnn, if_false, Int.toNat_ofNat, hg, Option.map_some']
    subst hlen
    rw [collect_arrivals outs order hperm]

theorem withDefaults_BaseURL (req : APIRequest) :
    (withDefaults req).BaseURL = req.BaseURL := by
  unfold withDefaults
  dsimp only
  split_ifs <;> rfl

theorem withDefaults_ConcurrentCount (req : APIRequest) :
    (withDefaults req).ConcurrentCount
      = if req.ConcurrentCount ≤ 0 then 1 else req.ConcurrentCount := by
  unfold withDefaults
  dsimp only
  split_ifs <;> simp_all

theorem handleChatRequestWith_invalid {m : Type → Type} [Monad m]
    (single : APIRequest → Nat → m RequestResult) (concurrent : APIRequest → m APIResponse)
    (req : APIRequest) (hv : req.BaseURL = "" ∨ req.APIKey = "") :
    handleChatRequestWith single concurrent (.ok req) =
      pure { status := 400,
             response := { APIResponse.zero with
               Success := false,
               Error := if req.BaseURL = "" then "BaseURL不能为空" else "APIKey不能为空" } } := by
  unfold handleChatRequestWith
  by_cases hb : req.BaseURL = ""
  · simp only [hb, if_true]
  · have hk : req.APIKey = "" := hv.resolve_left hb
    simp only [hb, if_false, hk, if_true]

theorem handleChatRequestWith_single {m : Type → Type} [Monad m]
    (single : APIRequest → Nat → m RequestResult) (concurrent : APIRequest → m APIResponse)
    (req : APIRequest) (hb : req.BaseURL ≠ "") (hk : req.APIKey ≠ "")
    (hc : (withDefaults req).ConcurrentCount = 1) :
    handleChatRequestWith single concurrent (.ok req) =
      single (withDefaults req) 0 >>= fun result =>
        pure { status := if result.Success then 200 else 500,
               response := { APIResponse.zero with
                 Success := result.Success, Content := result.Content,
                 Error := result.Error, Usage := result.Usage,
                 RequestIndex := result.RequestIndex,
                 UserMessageID := (withDefaults req).UserMessageID } } := by
  unfold handleChatRequestWith
  simp only [hb, hk, if_false, hc, if_true]

theorem handleChatRequestWith_concurrent {m : Type → Type} [Monad m]
    (single : APIRequest → Nat → m RequestResult) (concurrent : APIRequest → m APIResponse)
    (req : APIRequest) (hb : req.BaseURL ≠ "") (hk : req.APIKey ≠ "")
    (hc : (withDefaults req).ConcurrentCount ≠ 1) :
    handleChatRequestWith single concurrent (.ok req) =
      concurrent (withDefaults req) >>= fun response0 =>
        pure { status :=
                 if { response0 with
                      UserMessageID := (withDefaults req).UserMessageID }.SuccessCount > 0
                 then 200 else 500,
               response := { response0 with
                 UserMessageID := (withDefaults req).UserMessageID } } := by
  unfold handleChatRequestWith
  simp only [hb, hk, if_false, hc]

theorem recorded_bind_pure {α β : Type} (req : APIRequest) (a : α) (f : α → β)
    (calls : List APIRequest) :
    (recorded req (some a) >>= fun x => (pure (f x) : StateT (List APIRequest) Option β)).run
        calls = some (f a, calls ++ [req]) := by
  simp [recorded, StateT.run, bind, StateT.bind, pure, StateT.pure]

/-- Claim C1: `sendConcurrentRequests` answers with the aggregate of the per-call
outcomes, and over any `N > 1` per-call outcomes the aggregate has `successCount`
equal to the number `k` of successful outcomes and `totalCount` equal to `N`; its
success flag is true exactly when `k > 0` (all failing gives false and count 0);
and when `k > 0` its content, usage and requestIndex are those of the successful
outcome with the lowest index. -/
theorem aggregate_spec (results : List RequestResult) (N : Nat) (_hN : 1 < N)
    (hlen : results.length = N) :
    (∀ (net : HTTPRequest → Exchange) (rnd : Nat → Nat → Fin 62) (order : List Nat)
        (req : APIRequest), req.ConcurrentCount = N → req.BaseURL ≠ "" →
        order.Perm (List.range N) → goroutines net rnd req (List.range N) = some results →
        sendConcurrentRequests net rnd order req = some (aggregate results N)) ∧
      (aggregate results N).SuccessCount = results.countP (fun r => r.Success) ∧
      (aggregate results N).TotalCount = N ∧
      (aggregate results N).ConcurrentResults = results ∧
      ((aggregate results N).Success = true ↔ 0 < results.countP (fun r => r.Success)) ∧
      (results.countP (fun r => r.Success) = 0 →
        (aggregate results N).Success = false ∧ (aggregate results N).SuccessCount = 0) ∧
      (0 < results.countP (fun r => r.Success) →
        ∃ i r, i < N ∧ results.get? i = some r ∧ r.Success = true ∧
          (∀ j, j < i → ∀ q, results.get? j = some q → q.Success = false) ∧
          (aggregate results N).Content = r.Content ∧
          (aggregate results N).Usage = r.Usage ∧
          (aggregate results N).RequestIndex = r.RequestIndex) := by
  refine ⟨?_, ?_⟩
  · intro net rnd order req hc hb hperm hg
    obtain ⟨outs, hg2, _, _, hs⟩ := sendConcurrentRequests_eq net rnd order req N hc hb hperm
    rw [hg] at hg2
    injection hg2 with hg2
    rw [hs, hg2]
  have hcs := countSuccess_eq results
  cases hf : results.find? (fun r => r.Success) with
  | none =>
    have hk : results.countP (fun r => r.Success) = 0 := by
      rw [List.countP_eq_zero]
      intro a ha
      exact (List.find?_eq_none.mp hf) a ha
    have hagg : aggregate results N =
        { APIResponse.zero with
          ConcurrentResults := results, SuccessCount := 0, TotalCount := N,
          IsFinalResult := true, Success := false,
          Error := match results with
            | first :: _ => first.Error
            | [] => "所有并发请求都失败了" } := by
      unfold aggregate
      rw [hcs, hf, hk]
      rfl
    rw [hagg, hk]
    simp
  | some r =>
    have hk : 0 < results.countP (fun r => r.Success) := by
      rw [List.countP_pos_iff]
      exact ⟨r, List.mem_of_find?_eq_some hf, List.find?_some hf⟩
    have hagg : aggregate results N =
        { APIResponse.zero with
          ConcurrentResults := results,
          SuccessCount := results.countP (fun r => r.Success), TotalCount := N,
          IsFinalResult := true, Success := true, Content := r.Content,
          Usage := r.Usage, RequestIndex := r.RequestIndex } := by
      unfold aggregate
      rw [hcs, hf]
      simp only [gt_iff_lt, hk, decide_True]
    obtain ⟨i, hi, hs, hlow⟩ := find_first_index results r hf
    rw [hagg]
    refine ⟨rfl, rfl, rfl, by simp [hk], by omega, fun _ => ⟨i, r, ?_, hi, hs, hlow, rfl, rfl, rfl⟩⟩
    rw [← hlen]
    rw [List.get?_eq_some] at hi
    exact hi.1

/-- Witness of `aggregate_spec`: two outcomes, the first failed, the second succeeded. -/
theorem aggregate_spec_witness :
    (aggregate
        [{ RequestResult.zero with Error := "e" },
         { RequestResult.zero with Success := true, Content := "c", RequestIndex := 1 }]
        (2 : Nat)).SuccessCount = 1 :=
  (aggregate_spec
    [{ RequestResult.zero with Error := "e" },
     { RequestResult.zero with Success := true, Content := "c", RequestIndex := 1 }]
    2 (by decide) rfl).2.1

theorem aggregate_results (results : List RequestResult) (N : Int) :
    (aggregate results N).ConcurrentResults = results := by
  unfold aggregate
  dsimp only
  generalize decide ((countSuccess results).1 > 0) = d
  generalize (countSuccess results).2 = first
  cases d <;> cases first <;> rfl

/-- Claim C2: the outcome of `sendSingleRequest` carries the call index on every
return path (and there is one whenever the base URL is not empty); hence with
concurrency `N > 1` and any arrival order the outcome collection has exactly `N`
entries, entry `i` being the outcome of call `i` with `requestIndex = i`; and with
concurrency 1 the response's `requestIndex` is 0. -/
theorem requestIndex_spec (net : HTTPRequest → Exchange) (rnd : Nat → Nat → Fin 62)
    (order : List Nat) (req : APIRequest) (N : Nat) (_hN : 1 < N)
    (hc : req.ConcurrentCount = N) (hb : req.BaseURL ≠ "")
    (hperm : order.Perm (List.range N)) :
    (∀ (ex : Exchange) (i : Nat), (resultOf i ex).RequestIndex = i) ∧
      (∀ (req1 : APIRequest) (f : Nat → Fin 62) (i : Nat) (r : RequestResult),
        sendSingleRequest net f req1 i = some r → r.RequestIndex = i) ∧
      (∀ (req1 : APIRequest) (f : Nat → Fin 62) (i : Nat), req1.BaseURL ≠ "" →
        ∃ r, sendSingleRequest net f req1 i = some r) ∧
      (∃ resp, sendConcurrentRequests net rnd order req = some resp ∧
        resp.ConcurrentResults.length = N ∧
        ∀ i, i < N → ∃ r, resp.ConcurrentResults.get? i = some r ∧
          r.RequestIndex = i ∧ sendSingleRequest net (rnd i) req i = some r) ∧
      (∀ (req1 : APIRequest), req1.BaseURL ≠ "" → req1.APIKey ≠ "" →
        req1.ConcurrentCount ≤ 1 →
        ∃ h, handleChatRequest net rnd order (.ok req1) = some h ∧
          h.response.RequestIndex = 0) := by
  refine ⟨fun ex i => resultOf_requestIndex i ex,
    fun req1 f i r h => sendSingleRequest_requestIndex net f req1 i r h,
    fun req1 f i h => sendSingleRequest_isSome net f req1 i h, ?_, ?_⟩
  · obtain ⟨outs, _, hlen, hk, hs⟩ := sendConcurrentRequests_eq net rnd order req N hc hb hperm
    refine ⟨_, hs, ?_, ?_⟩
    · rw [aggregate_results, hlen]
    · intro i hi
      obtain ⟨r, hr, hsr⟩ := hk i hi
      refine ⟨r, ?_, sendSingleRequest_requestIndex net (rnd i) req i r hsr, hsr⟩
      rw [aggregate_results, hr]
  · intro req1 hb1 hk1 hc1
    have hb2 : (withDefaults req1).BaseURL ≠ "" := by
      rw [withDefaults_BaseURL]
      exact hb1
    have hc2 : (withDefaults req1).ConcurrentCount = 1 := by
      rw [withDefaults_ConcurrentCount]
      split_ifs <;> omega
    obtain ⟨r, hr⟩ := sendSingleRequest_isSome net (rnd 0) (withDefaults req1) 0 hb2
    unfold handleChatRequest
    rw [handleChatRequestWith_single _ _ req1 hb1 hk1 hc2, hr]
    exact ⟨_, rfl, sendSingleRequest_requestIndex _ _ _ _ _ hr⟩

/-- Witness of `requestIndex_spec`: two calls whose items arrive in the order 1, 0,
against an upstream that answers 200 with one choice. -/
theorem requestIndex_spec_witness :
    ∃ resp,
      sendConcurrentRequests
          (fun _ => Exchange.response 200 "200 OK" ""
            (.ok { ID := "", Object := "", Created := 0, Model := "",
                    Choices := [{ Index := 0, Role := "assistant", Content := "ok",
                                  FinishReason := "stop" }],
                    Usage := .malformed "" }))
          (fun _ _ => 0) [1, 0]
          { BaseURL := "https://x.com", APIKey := "k", Organization := "",
            RequestBody := .malformed "", ConcurrentCount := 2, Headers := [],
            UserMessageID := "", RequestTimeout := 0 } = some resp ∧
        resp.ConcurrentResults.length = 2 ∧
        ∀ i, i < 2 → ∃ r, resp.ConcurrentResults.get? i = some r ∧ r.RequestIndex = i ∧
          sendSingleRequest
              (fun _ => Exchange.response 200 "200 OK" ""
                (.ok { ID := "", Object := "", Created := 0, Model := "",
                        Choices := [{ Index := 0, Role := "assistant", Content := "ok",
                                      FinishReason := "stop" }],
                        Usage := .malformed "" }))
              0
              { BaseURL := "https://x.com", APIKey := "k", Organization := "",
                RequestBody := .malformed "", ConcurrentCount := 2, Headers := [],
                UserMessageID := "", RequestTimeout := 0 } i = some r :=
  (requestIndex_spec _ (fun _ _ => 0) [1, 0] _ 2 (by decide) rfl (by decide)
    (List.Perm.swap 0 1 [])).2.2.2.1

/-! ## Validation -/

/-- Claim C10: a request with an empty base URL or an empty API key is answered
with status 400 and `success=false`, and the handler calls neither
`sendSingleRequest` nor `sendConcurrentRequests`: whatever the two functions are
and whatever effect their calls have, the handler returns its answer without any
effect, and the record of calls stays empty. A request that passes validation is
answered after exactly one call, with the validated request (defaults filled in),
whose base URL is not empty, so that `sendSingleRequest` builds its URL without an
out-of-range index, also in every goroutine of the fan-out. -/
theorem handleChatRequest_validation (net : HTTPRequest → Exchange)
    (rnd : Nat → Nat → Fin 62) (order : List Nat) (req : APIRequest) :
    ((req.BaseURL = "" ∨ req.APIKey = "") →
      ∃ h : Handled,
        400 ≤ h.status ∧ h.status < 500 ∧ h.response.Success = false ∧
        (∀ (m : Type → Type) [Monad m] (single : APIRequest → Nat → m RequestResult)
            (concurrent : APIRequest → m APIResponse),
          handleChatRequestWith single concurrent (.ok req) = pure h) ∧
        handleChatRequest net rnd order (.ok req) = some h ∧
        handleChatRequestRecorded net rnd order (.ok req) = some (h, [])) ∧
      ((req.BaseURL ≠ "" ∧ req.APIKey ≠ "") →
        ∃ h : Handled,
          handleChatRequest net rnd order (.ok req) = some h ∧
          handleChatRequestRecorded net rnd order (.ok req) = some (h, [withDefaults req]) ∧
          (withDefaults req).BaseURL = req.BaseURL ∧
          (withDefaults req).BaseURL.data.getLast?.isSome = true ∧
          (apiURL (withDefaults req).BaseURL).isSome = true ∧
          (∀ (f : Nat → Fin 62) (i : Nat),
            (sendSingleRequest net f (withDefaults req) i).isSome = true) ∧
          (1 < (withDefaults req).ConcurrentCount →
            ∃ outcomes,
              goroutines net rnd (withDefaults req)
                (List.range (withDefaults req).ConcurrentCount.toNat) = some outcomes)) := by
  constructor
  · intro hv
    refine ⟨_, ?_, ?_, ?_, fun m _ single concurrent =>
      handleChatRequestWith_invalid single concurrent req hv, ?_, ?_⟩
    · exact Nat.le_refl 400
    · show 400 < 500
      decide
    · rfl
    · unfold handleChatRequest
      rw [handleChatRequestWith_invalid _ _ req hv]
      rfl
    · unfold handleChatRequestRecorded
      rw [handleChatRequestWith_invalid _ _ req hv]
      rfl
  · rintro ⟨hb, hk⟩
    have hbe := withDefaults_BaseURL req
    have hb2 : (withDefaults req).BaseURL ≠ "" := by
      rw [hbe]
      exact hb
    have hlast : (withDefaults req).BaseURL.data.getLast?.isSome = true := by
      cases hl : (withDefaults req).BaseURL.data.getLast? with
      | none =>
        exact absurd (List.getLast?_eq_none_iff.mp hl) (data_ne_nil_of_ne_empty _ hb2)
      | some c => rfl
    have hsome : ∀ (f : Nat → Fin 62) (i : Nat),
        (sendSingleRequest net f (withDefaults req) i).isSome = true := by
      intro f i
      obtain ⟨r, hr⟩ := sendSingleRequest_isSome net f (withDefaults req) i hb2
      rw [hr]
      rfl
    have hgo : ∃ outcomes,
        goroutines net rnd (withDefaults req)
          (List.range (withDefaults req).ConcurrentCount.toNat) = some outcomes := by
      obtain ⟨outs, hg, -⟩ := goroutines_spec net rnd (withDefaults req) hb2
        (List.range (withDefaults req).ConcurrentCount.toNat)
      exact ⟨outs, hg⟩
    by_cases h1 : (withDefaults req).ConcurrentCount = 1
    · obtain ⟨r, hr⟩ := sendSingleRequest_isSome net (rnd 0) (withDefaults req) 0 hb2
      refine ⟨{ status := if r.Success then 200 else 500,
                response := { APIResponse.zero with
                  Success := r.Success, Content := r.Content, Error := r.Error,
                  Usage := r.Usage, RequestIndex := r.RequestIndex,
                  UserMessageID := (withDefaults req).UserMessageID } },
        ?_, ?_, hbe, hlast, apiURL_isSome _ hb2, hsome, fun _ => hgo⟩
      · unfold handleChatRequest
        rw [handleChatRequestWith_single _ _ req hb hk h1, hr]
        rfl
      · unfold handleChatRequestRecorded
        rw [handleChatRequestWith_single _ _ req hb hk h1, hr, recorded_bind_pure]
        rfl
    · have hpos : 1 < (withDefaults req).ConcurrentCount := by
        have := withDefaults_ConcurrentCount req
        split_ifs at this <;> omega
      obtain ⟨outs, hg⟩ := hgo
      have hnn : ¬ (withDefaults req).ConcurrentCount < 0 := by omega
      have hs : sendConcurrentRequests net rnd order (withDefaults req) =
          some (aggregate
            (collect (withDefaults req).ConcurrentCount.toNat (arrivals outs order))
            (withDefaults req).ConcurrentCount) := by
        simp only [sendConcurrentRequests, hnn, if_false, hg, Option.map_some']
      refine ⟨{ status :=
                  if (aggregate
                      (collect (withDefaults req).ConcurrentCount.toNat (arrivals outs order))
                      (withDefaults req).ConcurrentCount).SuccessCount > 0
                  then 200 else 500,
                response :=
                  { aggregate
                      (collect (withDefaults req).ConcurrentCount.toNat (arrivals outs order))
                      (withDefaults req).ConcurrentCount with
                    UserMessageID := (withDefaults req).UserMessageID } },
        ?_, ?_, hbe, hlast, apiURL_isSome _ hb2, hsome, fun _ => ⟨outs, hg⟩⟩
      · unfold handleChatRequest
        rw [handleChatRequestWith_concurrent _ _ req hb hk h1, hs]
        rfl
      · unfold handleChatRequestRecorded
        rw [handleChatRequestWith_concurrent _ _ req hb hk h1, hs, recorded_bind_pure]
        rfl

/-- Witness of `handleChatRequest_validation`: a request with an empty API key
and a concurrency of 3 is answered 400 with an empty record of calls, and the
same request with a key is answered after one recorded call. -/
theorem handleChatRequest_validation_witness :
    (∃ h : Handled,
      400 ≤ h.status ∧ h.status < 500 ∧ h.response.Success = false ∧
      (∀ (m : Type → Type) [Monad m] (single : APIRequest → Nat → m RequestResult)
          (concurrent : APIRequest → m APIResponse),
        handleChatRequestWith single concurrent
          (.ok { BaseURL := "https://x.com", APIKey := "", Organization := "",
                 RequestBody := .malformed "", ConcurrentCount := 3, Headers := [],
                 UserMessageID := "", RequestTimeout := 0 }) = pure h) ∧
      handleChatRequest (fun _ => Exchange.doError "unreachable") (fun _ _ => 0) [0]
          (.ok { BaseURL := "https://x.com", APIKey := "", Organization := "",
                 RequestBody := .malformed "", ConcurrentCount := 3, Headers := [],
                 UserMessageID := "", RequestTimeout := 0 }) = some h ∧
      handleChatRequestRecorded (fun _ => Exchange.doError "unreachable") (fun _ _ => 0) [0]
          (.ok { BaseURL := "https://x.com", APIKey := "", Organization := "",
                 RequestBody := .malformed "", ConcurrentCount := 3, Headers := [],
                 UserMessageID := "", RequestTimeout := 0 }) = some (h, [])) ∧
    (∃ h : Handled,
      handleChatRequest (fun _ => Exchange.doError "refused") (fun _ _ => 0) [2, 0, 1]
          (.ok { BaseURL := "https://x.com", APIKey := "k", Organization := "",
                 RequestBody := .malformed "", ConcurrentCount := 3, Headers := [],
                 UserMessageID := "", RequestTimeout := 0 }) = some h ∧
      handleChatRequestRecorded (fun _ => Exchange.doError "refused") (fun _ _ => 0) [2, 0, 1]
          (.ok { BaseURL := "https://x.com", APIKey := "k", Organization := "",
                 RequestBody := .malformed "", ConcurrentCount := 3, Headers := [],
                 UserMessageID := "", RequestTimeout := 0 })
        = some (h, [{ BaseURL := "https://x.com", APIKey := "k", Organization := "",
                      RequestBody := .malformed "", ConcurrentCount := 3, Headers := [],
                      UserMessageID := "", RequestTimeout := 30 }])) := by
  refine ⟨(handleChatRequest_validation _ _ _ _).1 (Or.inr rfl), ?_⟩
  obtain ⟨h, h1, h2, _⟩ :=
    (handleChatRequest_validation (fun _ => Exchange.doError "refused") (fun _ _ => 0)
      [2, 0, 1]
      { BaseURL := "https://x.com", APIKey := "k", Organization := "",
        RequestBody := .malformed "", ConcurrentCount := 3, Headers := [],
        UserMessageID := "", RequestTimeout := 0 }).2 ⟨by decide, by decide⟩
  exact ⟨h, h1, h2⟩

/-! ## Bodies that are sent as they are -/

theorem createUniqueRequestBody_no_messages (rnd : Nat → Fin 62) (body : RawMessage)
    (i : Nat) (requestData : List (String × Value))
    (hu : unmarshalMap body = .ok (some requestData))
    (hm : ∀ messages, mapGet "messages" requestData ≠ some (.arr messages)) :
    createUniqueRequestBody rnd body i = .ok body := by
  unfold createUniqueRequestBody
  rw [hu]
  cases hg : mapGet "messages" requestData with
  | none => simp only [hg]
  | some v =>
    cases v with
    | arr messages => exact absurd hg (hm messages)
    | null => simp only [hg]
    | bool b => simp only [hg]
    | num n => simp only [hg]
    | str s => simp only [hg]
    | obj ms => simp only [hg]

theorem uniqueRequestBody_not_object (rnd : Nat → Fin 62) (req : APIRequest) (i : Nat)
    (hu : ∀ requestData, unmarshalMap req.RequestBody ≠ .ok (some requestData)) :
    uniqueRequestBody rnd req i = req.RequestBody := by
  unfold uniqueRequestBody createUniqueRequestBody
  cases hr : unmarshalMap req.RequestBody with
  | error e => rfl
  | ok m =>
    cases m with
    | none => rfl
    | some requestData => exact absurd hr (hu requestData)

/-- Claim C9: a body that parses as a JSON object without a `messages` array comes
back from `createUniqueRequestBody` as it is, with no error; and when the body
does not parse as a JSON object, `sendSingleRequest` sends the original body and
its outcome is that of the exchange alone (a 200 answer with a choice gives
success and an empty error). -/
theorem unmodified_body_fallback (net : HTTPRequest → Exchange) (rnd : Nat → Fin 62)
    (i : Nat) :
    (∀ (body : RawMessage) (requestData : List (String × Value)),
        unmarshalMap body = .ok (some requestData) →
        (∀ messages, mapGet "messages" requestData ≠ some (.arr messages)) →
        createUniqueRequestBody rnd body i = .ok body) ∧
      (∀ (req : APIRequest) (url : String),
        (∀ requestData, unmarshalMap req.RequestBody ≠ .ok (some requestData)) →
        apiURL req.BaseURL = some url →
        outbound rnd req i =
            some { url := url, body := req.RequestBody, headers := requestHeaders req,
                   timeout := req.RequestTimeout } ∧
          sendSingleRequest net rnd req i =
            some (resultOf i (net { url := url, body := req.RequestBody,
                                    headers := requestHeaders req,
                                    timeout := req.RequestTimeout })) ∧
          ∀ (status body : String) (resp : OpenAIResponse) (c : Choice) (cs : List Choice),
            resp.Choices = c :: cs →
            (resultOf i (.response 200 status body (.ok resp))).Success = true ∧
              (resultOf i (.response 200 status body (.ok resp))).Error = "") := by
  refine ⟨fun body requestData hu hm =>
    createUniqueRequestBody_no_messages rnd body i requestData hu hm, ?_⟩
  intro req url hu hurl
  have hb := uniqueRequestBody_not_object rnd req i hu
  refine ⟨?_, ?_, ?_⟩
  · simp [outbound, hurl, hb]
  · simp [sendSingleRequest, outbound, hurl, hb]
  · intro status body resp c cs hc
    simp [resultOf, hc, RequestResult.zero]

/-- Witness of `unmodified_body_fallback`: the body `{"model":"m"}` has no
`messages` and is returned as it is. -/
theorem unmodified_body_fallback_witness :
    createUniqueRequestBody (fun _ => 0) (.doc (.obj [member "model" (jstr "m")])) 0
      = .ok (.doc (.obj [member "model" (jstr "m")])) :=
  (unmodified_body_fallback (fun _ => Exchange.doError "") (fun _ => 0) 0).1
    (.doc (.obj [member "model" (jstr "m")])) [("model", .str "m")] rfl
    (fun _ h => by simp [mapGet] at h)

/-! ## The loop over the messages -/

theorem scanMessages_cons_skip (rnd : Nat → Fin 62) (i : Nat) (m : Value) (rest : List Value)
    (hq : qualifies m = false) :
    scanMessages rnd i (m :: rest) = m :: scanMessages rnd i rest := by
  cases m with
  | obj message =>
    simp only [qualifies, isUserMessage, stringContent, Bool.and_eq_false_iff,
      decide_eq_false_iff_not] at hq
    cases hr : mapGet "role" message with
    | none => simp [scanMessages, hr]
    | some role =>
      cases role with
      | str r =>
        by_cases hu : r = "user"
        · subst hu
          have hc : (match mapGet "content" message with
              | some (.str content) => some content
              | _ => none).isSome = false := by
            rcases hq with h | h
            · exact absurd hr h
            · exact h
          cases hcc : mapGet "content" message with
          | none => simp [scanMessages, hr, hcc]
          | some c =>
            cases c with
            | str content => simp [hcc] at hc
            | null => simp [scanMessages, hr, hcc]
            | bool b => simp [scanMessages, hr, hcc]
            | num n => simp [scanMessages, hr, hcc]
            | arr xs => simp [scanMessages, hr, hcc]
            | obj ms => simp [scanMessages, hr, hcc]
        · simp [scanMessages, hr, hu]
      | null => simp [scanMessages, hr]
      | bool b => simp [scanMessages, hr]
      | num n => simp [scanMessages, hr]
      | arr xs => simp [scanMessages, hr]
      | obj ms => simp [scanMessages, hr]
  | null => simp [scanMessages]
  | bool b => simp [scanMessages]
  | num n => simp [scanMessages]
  | str s => simp [scanMessages]
  | arr xs => simp [scanMessages]

theorem scanMessages_cons_stop (rnd : Nat → Fin 62) (i : Nat) (message : List (String × Value))
    (content : String) (rest : List Value)
    (hr : mapGet "role" message = some (.str "user"))
    (hc : mapGet "content" message = some (.str content)) :
    scanMessages rnd i (.obj message :: rest) =
      (if matchString content.data then
        .obj (mapSet "content"
          (.str (replaceAllString content (newMarker (newId rnd content i)))) message)
       else .obj message) :: rest := by
  simp only [scanMessages, hr, hc, ne_eq, not_true_eq_false, if_false]
  split_ifs <;> rfl

theorem qualifies_iff (m : Value) :
    qualifies m = true ↔
      ∃ message content, m = .obj message ∧ mapGet "role" message = some (.str "user") ∧
        mapGet "content" message = some (.str content) := by
  constructor
  · intro h
    cases m with
    | obj message =>
      simp only [qualifies, isUserMessage, stringContent, Bool.and_eq_true,
        decide_eq_true_eq] at h
      obtain ⟨hr, hc⟩ := h
      cases hcc : mapGet "content" message with
      | none => simp [hcc] at hc
      | some c =>
        cases c with
        | str content => exact ⟨message, content, rfl, hr, hcc⟩
        | null => simp [hcc] at hc
        | bool b => simp [hcc] at hc
        | num n => simp [hcc] at hc
        | arr xs => simp [hcc] at hc
        | obj ms => simp [hcc] at hc
    | null => simp [qualifies, isUserMessage] at h
    | bool b => simp [qualifies, isUserMessage] at h
    | num n => simp [qualifies, isUserMessage] at h
    | str s => simp [qualifies, isUserMessage] at h
    | arr xs => simp [qualifies, isUserMessage] at h
  · rintro ⟨message, content, rfl, hr, hc⟩
    simp [qualifies, isUserMessage, stringContent, hr, hc]

theorem scanMessages_skip_all (rnd : Nat → Fin 62) (i : Nat) (pre rest : List Value)
    (hpre : ∀ m ∈ pre, qualifies m = false) :
    scanMessages rnd i (pre ++ rest) = pre ++ scanMessages rnd i rest := by
  induction pre with
  | nil => rfl
  | cons m pre ih =>
    rw [List.cons_append, scanMessages_cons_skip rnd i m _ (hpre m (List.mem_cons_self _ _)),
      ih (fun x hx => hpre x (List.mem_cons_of_mem _ hx)), List.cons_append]

/-- The last qualifying message splits the list, or no message qualifies. -/
theorem split_last_qualifying (messages : List Value) :
    (∀ m ∈ messages, qualifies m = false) ∨
      ∃ before m after, messages = before ++ m :: after ∧ qualifies m = true ∧
        ∀ x ∈ after, qualifies x = false := by
  induction messages with
  | nil => exact Or.inl (by simp)
  | cons a l ih =>
    rcases ih with h | ⟨before, m, after, rfl, hm, hafter⟩
    · by_cases ha : qualifies a = true
      · exact Or.inr ⟨[], a, l, rfl, ha, h⟩
      · refine Or.inl ?_
        intro x hx
        rcases List.mem_cons.mp hx with rfl | hx
        · simpa using ha
        · exact h x hx
    · exact Or.inr ⟨a :: before, m, after, rfl, hm, hafter⟩

theorem rewrittenMessages_none (rnd : Nat → Fin 62) (i : Nat) (messages : List Value)
    (h : ∀ m ∈ messages, qualifies m = false) :
    rewrittenMessages rnd i messages = messages := by
  unfold rewrittenMessages
  have := scanMessages_skip_all rnd i messages.reverse [] (by simpa using h)
  rw [List.append_nil] at this
  rw [this]
  simp [scanMessages]

theorem rewrittenMessages_split (rnd : Nat → Fin 62) (i : Nat) (before after : List Value)
    (message : List (String × Value)) (content : String)
    (hr : mapGet "role" message = some (.str "user"))
    (hc : mapGet "content" message = some (.str content))
    (hafter : ∀ x ∈ after, qualifies x = false) :
    rewrittenMessages rnd i (before ++ .obj message :: after) =
      before ++ (if matchString content.data then
          .obj (mapSet "content"
            (.str (replaceAllString content (newMarker (newId rnd content i)))) message)
        else .obj message) :: after := by
  unfold rewrittenMessages
  rw [List.reverse_append, List.reverse_cons, List.append_assoc, List.singleton_append,
    scanMessages_skip_all rnd i after.reverse _ (by simpa using hafter),
    scanMessages_cons_stop rnd i message content _ hr hc]
  simp

theorem createUniqueRequestBody_messages (rnd : Nat → Fin 62) (body : RawMessage) (i : Nat)
    (requestData : List (String × Value)) (messages : List Value)
    (hu : unmarshalMap body = .ok (some requestData))
    (hm : mapGet "messages" requestData = some (.arr messages)) :
    createUniqueRequestBody rnd body i =
      .ok (.doc (encode (.obj
        (mapReplace "messages" (.arr (rewrittenMessages rnd i messages)) requestData)))) := by
  unfold createUniqueRequestBody
  rw [hu]
  simp only [hm]
  rfl

theorem get?_append_cons_mid {α : Type} (before after : List α) (m : α) :
    (before ++ m :: after).get? before.length = some m := by
  rw [List.get?_eq_getElem?, List.getElem?_append_right (Nat.le_refl _)]
  simp

theorem get?_append_cons_other {α : Type} (before after : List α) (m m1 : α) (j : Nat)
    (hj : j ≠ before.length) :
    (before ++ m1 :: after).get? j = (before ++ m :: after).get? j := by
  rw [List.get?_eq_getElem?, List.get?_eq_getElem?]
  rcases Nat.lt_or_gt_of_ne hj with h | h
  · rw [List.getElem?_append_left h, List.getElem?_append_left h]
  · rw [List.getElem?_append_right (Nat.le_of_lt h),
      List.getElem?_append_right (Nat.le_of_lt h)]
    obtain ⟨d, hd⟩ : ∃ d, j - before.length = d + 1 := ⟨j - before.length - 1, by omega⟩
    rw [hd]
    rfl

theorem get?_after_mem {α : Type} (before after : List α) (m x : α) (k : Nat)
    (hk : before.length < k) (hx : (before ++ m :: after).get? k = some x) : x ∈ after := by
  rw [List.get?_eq_getElem?, List.getElem?_append_right (Nat.le_of_lt hk)] at hx
  obtain ⟨d, hd⟩ : ∃ d, k - before.length = d + 1 := ⟨k - before.length - 1, by omega⟩
  rw [hd, List.getElem?_cons_succ] at hx
  exact List.getElem?_mem hx

/-- What the loop does to the messages: it stops at the last user-role message
whose content is a string; every other message stays as decoded, and when the
content of that message has no marker all messages stay as decoded. -/
theorem rewrittenMessages_frame (rnd : Nat → Fin 62) (body : RawMessage) (i : Nat)
    (requestData : List (String × Value)) (messages : List Value)
    (hu : unmarshalMap body = .ok (some requestData))
    (hm : mapGet "messages" requestData = some (.arr messages)) :
    createUniqueRequestBody rnd body i =
        .ok (.doc (encode (.obj
          (mapReplace "messages" (.arr (rewrittenMessages rnd i messages)) requestData)))) ∧
      (rewrittenMessages rnd i messages).length = messages.length ∧
      (∀ j m, messages.get? j = some m →
        (qualifies m = false ∨
          ∃ k m1, j < k ∧ messages.get? k = some m1 ∧ qualifies m1 = true) →
        (rewrittenMessages rnd i messages).get? j = some m) ∧
      (∀ j m c, messages.get? j = some m → qualifies m = true → stringContent m = some c →
        matchString c.data = false →
        (∀ k m1, j < k → messages.get? k = some m1 → qualifies m1 = false) →
        rewrittenMessages rnd i messages = messages) := by
  refine ⟨createUniqueRequestBody_messages rnd body i requestData messages hu hm, ?_⟩
  rcases split_last_qualifying messages with hnone | ⟨before, mq, after, rfl, hq, hafter⟩
  · rw [rewrittenMessages_none rnd i messages hnone]
    exact ⟨rfl, fun j m hj _ => hj, fun _ _ _ _ _ _ _ _ => rfl⟩
  · obtain ⟨message, content, rfl, hr, hc⟩ := (qualifies_iff mq).mp hq
    rw [rewrittenMessages_split rnd i before after message content hr hc hafter]
    refine ⟨by simp, ?_, ?_⟩
    · intro j m hj hcase
      by_cases hjb : j = before.length
      · exfalso
        subst hjb
        rw [get?_append_cons_mid] at hj
        simp only [Option.some.injEq] at hj
        subst hj
        rcases hcase with h | ⟨k, m1, hk, hk1, hq1⟩
        · rw [hq] at h
          exact Bool.noConfusion h
        · have := hafter m1 (get?_after_mem before after _ m1 k hk hk1)
          rw [hq1] at this
          exact Bool.noConfusion this
      · rw [get?_append_cons_other before after (.obj message) _ j hjb]
        exact hj
    · intro j m c hj hqm hsc hno hlater
      have hjb : j = before.length := by
        rcases Nat.lt_trichotomy j before.length with h | h | h
        · have := hlater before.length (.obj message) h (get?_append_cons_mid _ _ _)
          rw [hq] at this
          exact Bool.noConfusion this
        · exact h
        · have := hafter m (get?_after_mem before after _ m j h hj)
          rw [hqm] at this
          exact Bool.noConfusion this
      subst hjb
      rw [get?_append_cons_mid] at hj
      simp only [Option.some.injEq] at hj
      subst hj
      have hcc : c = content := by
        simp only [stringContent, hc, Option.some.injEq] at hsc
        exact hsc.symm
      subst hcc
      simp [hno]

/-- Claim C5, the code at its failing input `twoUserBody`: the last user-role
message (the second message) has a list as content, so it is a user message
without string content, and call 0 returns the body in which the marker of the
first message is rewritten: a message other than the last user-role message is
modified, while the comments of the loop say that only the last user message is
handled. -/
theorem lastUserMessage_evaluated :
    messagesOf twoUserBody = some [
        .obj [member "role" (jstr "user"),
              member "content" (jstr "[请忽略该行内容，唯一随机任务id：OLD123]")],
        .obj [member "role" (jstr "user"),
              member "content" (.arr [.obj [member "type" (jstr "text"),
                                            member "text" (jstr "hi")]])]] ∧
      (decode (.obj [member "role" (jstr "user"),
                     member "content" (.arr [.obj [member "type" (jstr "text"),
                                                   member "text" (jstr "hi")]])])).map
          (fun m => (isUserMessage m, stringContent m)) = some (true, none) ∧
      createUniqueRequestBody (fun _ => 0) twoUserBody 0 =
        .ok (.doc (.obj [member "messages" (.arr [
          .obj [member "content"
                  (jstr "[请忽略该行内容，唯一随机任务id：AAAAAAAAAAAAAAAAAAAAAAAAAAA_C1]"),
                member "role" (jstr "user")],
          .obj [member "content" (.arr [.obj [member "text" (jstr "hi"),
                                              member "type" (jstr "text")]]),
                member "role" (jstr "user")]])])) ∧
      canon (.obj [member "content"
                     (jstr "[请忽略该行内容，唯一随机任务id：AAAAAAAAAAAAAAAAAAAAAAAAAAA_C1]"),
                   member "role" (jstr "user")])
        ≠ canon (.obj [member "role" (jstr "user"),
                       member "content" (jstr "[请忽略该行内容，唯一随机任务id：OLD123]")]) ∧
      canon (.obj [member "content" (.arr [.obj [member "text" (jstr "hi"),
                                                 member "type" (jstr "text")]]),
                   member "role" (jstr "user")])
        = canon (.obj [member "role" (jstr "user"),
                       member "content" (.arr [.obj [member "type" (jstr "text"),
                                                     member "text" (jstr "hi")]])]) := by
  decide

/-! ## The marker pattern -/

theorem takeWhile_append_stop (tok post : List Char) (h : ']' ∉ tok) :
    (tok ++ ']' :: post).takeWhile (fun c => c ≠ ']') = tok := by
  induction tok with
  | nil => simp [List.takeWhile]
  | cons c t ih =>
    have hc : c ≠ ']' := fun e => h (by simp [e])
    have ht : ']' ∉ t := fun e => h (List.mem_cons_of_mem _ e)
    have hi := ih ht
    rw [List.cons_append, List.takeWhile_cons]
    simp only [ne_eq, hc, not_false_eq_true, decide_True, if_true]
    rw [hi]

theorem matchAt_marker (tok post : List Char) (hne : tok ≠ []) (h : ']' ∉ tok) :
    matchAt (markerHead.data ++ tok ++ ']' :: post)
      = some (markerHead.data.length + tok.length + 1) := by
  unfold matchAt
  have hp : markerHead.data <+: markerHead.data ++ tok ++ ']' :: post := by
    rw [List.append_assoc]
    exact List.prefix_append _ _
  have hd : (markerHead.data ++ tok ++ ']' :: post).drop markerHead.data.length
      = tok ++ ']' :: post := by
    rw [List.append_assoc, List.drop_left]
  simp only [hp, if_true, hd, takeWhile_append_stop tok post h]
  have hh : ((tok ++ ']' :: post).drop tok.length).head? = some ']' := by
    rw [List.drop_left]
    rfl
  simp [hne, hh]

theorem replaceAllAux_none (repl : List Char) (c : Char) (cs : List Char)
    (h : matchAt (c :: cs) = none) :
    replaceAllAux repl 0 (c :: cs) = c :: replaceAllAux repl 0 cs := by
  rw [replaceAllAux]
  simp only [h]

theorem replaceAllAux_some (repl : List Char) (c : Char) (cs : List Char) (n : Nat)
    (h : matchAt (c :: cs) = some n) :
    replaceAllAux repl 0 (c :: cs) = repl ++ replaceAllAux repl (n - 1) cs := by
  rw [replaceAllAux]
  simp only [h]

theorem replaceAllAux_skip (repl : List Char) (xs s : List Char) :
    replaceAllAux repl xs.length (xs ++ s) = replaceAllAux repl 0 s := by
  induction xs with
  | nil => rfl
  | cons x xs ih =>
    simp only [List.length_cons, List.cons_append, replaceAllAux]
    exact ih

theorem replaceAllAux_copy (repl pre s : List Char)
    (h : ∀ k, k < pre.length → matchAt ((pre ++ s).drop k) = none) :
    replaceAllAux repl 0 (pre ++ s) = pre ++ replaceAllAux repl 0 s := by
  induction pre with
  | nil => rfl
  | cons c p ih =>
    have h0 : matchAt (c :: (p ++ s)) = none := h 0 (by simp)
    have hk : ∀ k, k < p.length → matchAt ((p ++ s).drop k) = none := by
      intro k hk
      have := h (k + 1) (by simpa using hk)
      simpa using this
    rw [List.cons_append, replaceAllAux_none repl c _ h0, ih hk, List.cons_append]

theorem replaceAllAux_marker (repl tok post : List Char) (hne : tok ≠ []) (h : ']' ∉ tok) :
    replaceAllAux repl 0 (markerHead.data ++ tok ++ ']' :: post)
      = repl ++ replaceAllAux repl 0 post := by
  have hm := matchAt_marker tok post hne h
  obtain ⟨h1, hh⟩ : ∃ h1, markerHead.data = '[' :: h1 := ⟨_, rfl⟩
  rw [hh] at hm ⊢
  simp only [List.cons_append] at hm ⊢
  rw [replaceAllAux_some repl _ _ _ hm]
  have hlen : ('[' :: h1).length + tok.length + 1 - 1 = (h1 ++ tok ++ [']']).length := by
    simp only [List.length_cons, List.length_append, List.length_nil]
    omega
  rw [hlen]
  have hs : h1 ++ tok ++ ']' :: post = (h1 ++ tok ++ [']']) ++ post := by simp
  rw [hs, replaceAllAux_skip]

theorem replaceAllAux_no_match (repl s : List Char) (h : matchString s = false) :
    replaceAllAux repl 0 s = s := by
  induction s with
  | nil => rfl
  | cons c cs ih =>
    simp only [matchString, Bool.or_eq_false_iff] at h
    have h0 : matchAt (c :: cs) = none := by
      cases hm : matchAt (c :: cs) with
      | none => rfl
      | some n => simp [hm] at h
    rw [replaceAllAux_none repl c cs h0, ih h.2]

theorem replaceAllAux_first (s : List Char) (h : matchString s = true) :
    ∃ pre, ∀ repl, ∃ tail, replaceAllAux repl 0 s = pre ++ repl ++ tail := by
  induction s with
  | nil => simp [matchString] at h
  | cons c cs ih =>
    cases hm : matchAt (c :: cs) with
    | some n =>
      refine ⟨[], fun repl => ⟨replaceAllAux repl (n - 1) cs, ?_⟩⟩
      rw [replaceAllAux_some repl c cs n hm, List.nil_append]
    | none =>
      simp only [matchString, hm, Option.isSome_none, Bool.false_or] at h
      obtain ⟨pre, hpre⟩ := ih h
      refine ⟨c :: pre, fun repl => ?_⟩
      obtain ⟨tail, ht⟩ := hpre repl
      exact ⟨tail, by rw [replaceAllAux_none repl c cs hm, ht]; simp⟩

/-! ## Unique ids -/

theorem max_eq_natMax (a b : Nat) : SikongAI.max a b = Nat.max a b := by
  unfold SikongAI.max
  split_ifs with h
  · exact (Nat.max_eq_left (Nat.le_of_lt h)).symm
  · exact (Nat.max_eq_right (Nat.le_of_not_lt h)).symm

theorem generateUniqueId_data (rnd : Nat → Fin 62) (n : Nat) :
    (generateUniqueId rnd n).data
      = (List.range (Nat.max 16 (n / 2))).map (fun i => chars.data.getD (rnd i).val 'A') := by
  unfold generateUniqueId
  by_cases hn : n > 0
  · simp only [hn, if_true, max_eq_natMax]
  · have h0 : n = 0 := by omega
    subst h0
    simp only [gt_iff_lt, lt_self_iff_false, if_false]
    rfl

theorem generateUniqueId_length (rnd : Nat → Fin 62) (n : Nat) :
    (generateUniqueId rnd n).data.length = Nat.max 16 (n / 2) := by
  rw [generateUniqueId_data]
  simp

theorem generateUniqueId_mem (rnd : Nat → Fin 62) (n : Nat) :
    ∀ c ∈ (generateUniqueId rnd n).data, c ∈ chars.data := by
  intro c hc
  rw [generateUniqueId_data, List.mem_map] at hc
  obtain ⟨i, _, rfl⟩ := hc
  have hlen : (rnd i).val < chars.data.length := by
    have : chars.data.length = 62 := by decide
    rw [this]
    exact (rnd i).isLt
  rw [List.getD_eq_getElem _ _ hlen]
  exact List.getElem_mem _

theorem digitsRev_reverse (fuel n : Nat) (acc : List Char) :
    Nat.toDigitsCore 10 fuel n acc = (digitsRev fuel n).reverse ++ acc := by
  induction fuel generalizing n acc with
  | zero => rfl
  | succ f ih =>
    simp only [Nat.toDigitsCore, digitsRev]
    split_ifs with h
    · simp
    · rw [ih]
      simp

theorem sprintD_eq_repr (n : Nat) : sprintD n = Nat.repr n := by
  unfold sprintD Nat.repr Nat.toDigits
  rw [digitsRev_reverse]
  simp [List.asString]

theorem digitChar_toNat (d : Nat) (hd : d < 10) : (Nat.digitChar d).toNat - 48 = d := by
  interval_cases d <;> rfl

theorem digitsRev_value (fuel n : Nat) (h : n < fuel) :
    (digitsRev fuel n).foldr (fun c acc => (c.toNat - 48) + 10 * acc) 0 = n := by
  induction fuel generalizing n with
  | zero => omega
  | succ f ih =>
    simp only [digitsRev, List.foldr_cons]
    rw [digitChar_toNat _ (Nat.mod_lt _ (by decide))]
    split_ifs with h0
    · simp only [List.foldr_nil]
      have := Nat.div_add_mod n 10
      omega
    · have hlt : n / 10 < f := by
        have : n / 10 < n := Nat.div_lt_self (by omega) (by decide)
        omega
      rw [ih _ hlt]
      have := Nat.div_add_mod n 10
      omega

theorem sprintD_injective (a b : Nat) (h : sprintD a = sprintD b) : a = b := by
  unfold sprintD at h
  have h1 : (digitsRev (a + 1) a).reverse = (digitsRev (b + 1) b).reverse := by
    injection h
  have h2 : digitsRev (a + 1) a = digitsRev (b + 1) b := List.reverse_injective h1
  have ha := digitsRev_value (a + 1) a (by omega)
  have hb := digitsRev_value (b + 1) b (by omega)
  rw [h2] at ha
  omega

theorem digitsRev_mem (fuel n : Nat) : ∀ c ∈ digitsRev fuel n, c ∈ "0123456789".data := by
  induction fuel generalizing n with
  | zero => simp [digitsRev]
  | succ f ih =>
    intro c hc
    simp only [digitsRev, List.mem_cons] at hc
    rcases hc with rfl | hc
    · have : n % 10 < 10 := Nat.mod_lt _ (by decide)
      interval_cases (n % 10) <;> decide
    · split_ifs at hc
      · simp at hc
      · exact ih _ c hc

theorem newId_data (rnd : Nat → Fin 62) (content : String) (i : Nat) :
    (newId rnd content i).data
      = (generateUniqueId rnd (goLen content)).data ++ "_C".data ++ (sprintD (i + 1)).data := by
  simp [newId, String.data_append]

theorem newId_mem (rnd : Nat → Fin 62) (content : String) (i : Nat) :
    ∀ c ∈ (newId rnd content i).data, c ∈ chars.data ∨ c = '_' := by
  intro c hc
  rw [newId_data] at hc
  simp only [List.mem_append] at hc
  rcases hc with (hc | hc) | hc
  · exact Or.inl (generateUniqueId_mem rnd _ c hc)
  · have : c = '_' ∨ c = 'C' := by simpa using hc
    rcases this with rfl | rfl
    · exact Or.inr rfl
    · exact Or.inl (by decide)
  · have hd : c ∈ "0123456789".data := by
      unfold sprintD at hc
      simp only [List.mem_reverse] at hc
      exact digitsRev_mem _ _ c hc
    have hsub : ∀ x ∈ "0123456789".data, x ∈ chars.data := by decide
    exact Or.inl (hsub c hd)

theorem newId_no_bracket (rnd : Nat → Fin 62) (content : String) (i : Nat) :
    ']' ∉ (newId rnd content i).data ∧ '$' ∉ (newId rnd content i).data := by
  constructor
  · intro h
    rcases newId_mem rnd content i _ h with h1 | h1
    · exact absurd h1 (by decide)
    · exact absurd h1 (by decide)
  · intro h
    rcases newId_mem rnd content i _ h with h1 | h1
    · exact absurd h1 (by decide)
    · exact absurd h1 (by decide)

/-- The replacement text holds no `$`, so that `ReplaceAllString` takes it as it is. -/
theorem newMarker_no_dollar (rnd : Nat → Fin 62) (content : String) (i : Nat) :
    '$' ∉ (newMarker (newId rnd content i)).data := by
  intro h
  simp only [newMarker, String.data_append, List.mem_append] at h
  rcases h with (h | h) | h
  · exact absurd h (by decide)
  · exact (newId_no_bracket rnd content i).2 h
  · exact absurd h (by decide)

/-! ## Maps and encoding -/

theorem mapGet_mapSet_self {κ α : Type} [DecidableEq κ] [SortKey κ] (k : κ) (v : α)
    (m : List (κ × α)) :
    mapGet k (mapSet k v m) = some v := by
  induction m with
  | nil => simp [mapSet, mapGet]
  | cons e rest ih =>
    obtain ⟨k1, v1⟩ := e
    simp only [mapSet]
    split_ifs with h1 h2
    · simp [mapGet]
    · simp [mapGet]
    · simp [mapGet, h1, ih]

theorem mapGet_mapSet_ne {κ α : Type} [DecidableEq κ] [SortKey κ] (k k2 : κ) (v : α)
    (m : List (κ × α))
    (hk : k2 ≠ k) : mapGet k2 (mapSet k v m) = mapGet k2 m := by
  induction m with
  | nil => simp [mapSet, mapGet, hk]
  | cons e rest ih =>
    obtain ⟨k1, v1⟩ := e
    simp only [mapSet]
    split_ifs with h1 h2
    · subst h1
      simp [mapGet, hk]
    · simp [mapGet, hk]
    · simp only [mapGet, ih]

theorem mapGet_mapReplace_self {κ α : Type} [DecidableEq κ] (k : κ) (v v0 : α)
    (m : List (κ × α))
    (h : mapGet k m = some v0) : mapGet k (mapReplace k v m) = some v := by
  induction m with
  | nil => simp [mapGet] at h
  | cons e rest ih =>
    obtain ⟨k1, v1⟩ := e
    simp only [mapReplace]
    by_cases h1 : k = k1
    · simp [h1, mapGet]
    · simp only [mapGet, h1, if_false] at h ⊢
      exact ih h

theorem mapGet_mapReplace_ne {κ α : Type} [DecidableEq κ] (k k2 : κ) (v : α)
    (m : List (κ × α))
    (hk : k2 ≠ k) : mapGet k2 (mapReplace k v m) = mapGet k2 m := by
  induction m with
  | nil => rfl
  | cons e rest ih =>
    obtain ⟨k1, v1⟩ := e
    simp only [mapReplace]
    by_cases h1 : k = k1
    · subst h1
      simp [mapGet, hk]
    · simp only [h1, if_false, mapGet, ih]

theorem mapReplace_same {κ α : Type} [DecidableEq κ] (k : κ) (v : α)
    (m : List (κ × α))
    (h : mapGet k m = some v) : mapReplace k v m = m := by
  induction m with
  | nil => rfl
  | cons e rest ih =>
    obtain ⟨k1, v1⟩ := e
    simp only [mapReplace]
    by_cases h1 : k = k1
    · simp only [mapGet, h1, if_true, Option.some.injEq] at h
      simp [h1, h]
    · simp only [mapGet, h1, if_false] at h
      simp only [h1, if_false, ih h]

theorem encode_obj (ms : List (String × Value)) : encode (.obj ms) = .obj (encodeMembers ms) := by
  rw [encode]

theorem encode_arr (xs : List Value) : encode (.arr xs) = .arr (encodeList xs) := by
  rw [encode]

theorem encode_str (s : String) : encode (.str s) = .str (Literal.ofString s) := by
  rw [encode]

theorem Literal.ofString_injective : Function.Injective Literal.ofString := by
  intro a b h
  apply String.ext
  unfold Literal.ofString at h
  exact List.map_injective_iff.mpr (fun x y hxy => by injection hxy) h

theorem Literal.decode_ofString (s : String) : (Literal.ofString s).decode = s := by
  apply String.ext
  simp only [Literal.decode, Literal.ofString, List.map_map]
  induction s.data with
  | nil => rfl
  | cons c cs ih => rw [List.map_cons, ih]; rfl

theorem Literal.ofString_decode (l : Literal) (h : l.wellFormed = true) :
    Literal.ofString l.decode = l := by
  unfold Literal.ofString Literal.decode
  simp only [List.map_map]
  unfold Literal.wellFormed at h
  rw [List.all_eq_true] at h
  conv_rhs => rw [← List.map_id l]
  apply List.map_congr_left
  intro u hu
  have := h u hu
  cases u with
  | scalar c => rfl
  | surrogate n => simp at this
  | byte b => simp at this

theorem encodeList_eq_map (xs : List Value) : encodeList xs = xs.map encode := by
  induction xs with
  | nil => rw [encodeList]; rfl
  | cons x xs ih => rw [encodeList, ih]; rfl

theorem mapGet_encodeMembers (k : String) (ms : List (String × Value)) :
    mapGet (Literal.ofString k) (encodeMembers ms) = (mapGet k ms).map encode := by
  induction ms with
  | nil => rw [encodeMembers]; rfl
  | cons e rest ih =>
    obtain ⟨k1, v1⟩ := e
    rw [encodeMembers]
    simp only [mapGet]
    by_cases h : k = k1
    · simp [h]
    · have h2 : Literal.ofString k ≠ Literal.ofString k1 :=
        fun e => h (Literal.ofString_injective e)
      simp only [h, h2, if_false]
      exact ih

/-! ## The rewritten marker -/

theorem newId_eq (rnd : Nat → Fin 62) (content : String) (i : Nat) :
    newId rnd content i =
      String.mk ((generateUniqueId rnd (goLen content)).data ++ "_C".data
        ++ (Nat.repr (i + 1)).data) := by
  apply String.ext
  rw [newId_data, sprintD_eq_repr]

theorem replaceAllString_marker (content repl : String) (pre tok post : List Char)
    (hd : content.data = pre ++ markerHead.data ++ tok ++ ']' :: post) (hne : tok ≠ [])
    (htok : ']' ∉ tok) (hfirst : ∀ k, k < pre.length → matchAt (content.data.drop k) = none) :
    (replaceAllString content repl).data
      = pre ++ repl.data ++ (replaceAllString (String.mk post) repl).data := by
  unfold replaceAllString
  simp only
  have hd2 : content.data = pre ++ (markerHead.data ++ tok ++ ']' :: post) := by
    rw [hd]
    simp
  rw [hd2] at hfirst ⊢
  rw [replaceAllAux_copy repl.data pre _ hfirst, replaceAllAux_marker repl.data tok post hne htok]
  simp

theorem replaceAllString_no_match (s repl : String) (h : matchString s.data = false) :
    replaceAllString s repl = s := by
  unfold replaceAllString
  rw [replaceAllAux_no_match repl.data s.data h]

/-! ## Cross-call uniqueness -/

theorem append_sep_inj (l1 l2 r1 r2 : List Char) (a : Char) (h1 : a ∉ l1) (h2 : a ∉ l2)
    (h : l1 ++ a :: r1 = l2 ++ a :: r2) : l1 = l2 := by
  induction l1 generalizing l2 with
  | nil =>
    cases l2 with
    | nil => rfl
    | cons b l2 =>
      simp only [List.nil_append, List.cons_append, List.cons.injEq] at h
      exact absurd (by simp [h.1]) h2
  | cons b l1 ih =>
    cases l2 with
    | nil =>
      simp only [List.nil_append, List.cons_append, List.cons.injEq] at h
      exact absurd (by simp [h.1]) h1
    | cons c l2 =>
      simp only [List.cons_append, List.cons.injEq] at h
      rw [h.1, ih l2 (fun e => h1 (List.mem_cons_of_mem _ e))
        (fun e => h2 (List.mem_cons_of_mem _ e)) h.2]

theorem newId_ne (rnd1 rnd2 : Nat → Fin 62) (content : String) (i j : Nat) (hij : i ≠ j) :
    newId rnd1 content i ≠ newId rnd2 content j := by
  intro h
  have hd := congrArg String.data h
  rw [newId_data, newId_data, List.append_assoc, List.append_assoc] at hd
  have hl : (generateUniqueId rnd1 (goLen content)).data.length
      = (generateUniqueId rnd2 (goLen content)).data.length := by
    rw [generateUniqueId_length, generateUniqueId_length]
  have h2 := (List.append_inj hd hl).2
  have h3 : (sprintD (i + 1)).data = (sprintD (j + 1)).data := List.append_cancel_left h2
  have h4 := sprintD_injective _ _ (String.ext h3)
  omega

theorem newContent_ne (rnd1 rnd2 : Nat → Fin 62) (content : String) (i j : Nat) (hij : i ≠ j)
    (hmark : matchString content.data = true) :
    replaceAllString content (newMarker (newId rnd1 content i))
      ≠ replaceAllString content (newMarker (newId rnd2 content j)) := by
  intro h
  obtain ⟨pre, hpre⟩ := replaceAllAux_first content.data hmark
  obtain ⟨t1, ht1⟩ := hpre (newMarker (newId rnd1 content i)).data
  obtain ⟨t2, ht2⟩ := hpre (newMarker (newId rnd2 content j)).data
  have hd := congrArg String.data h
  simp only [replaceAllString] at hd
  rw [ht1, ht2] at hd
  simp only [newMarker, String.data_append, List.append_assoc] at hd
  have hd2 := List.append_cancel_left (List.append_cancel_left hd)
  have hd3 : (newId rnd1 content i).data ++ ']' :: t1
      = (newId rnd2 content j).data ++ ']' :: t2 := by simpa using hd2
  have := append_sep_inj _ _ _ _ ']' (newId_no_bracket rnd1 content i).1
    (newId_no_bracket rnd2 content j).1 hd3
  exact newId_ne rnd1 rnd2 content i j hij (String.ext this)

/-- Claim C7: for a content that holds the marker and two distinct call indices,
the tokens of the two calls differ whatever is drawn (also when both calls draw
the same characters), hence so do the rewritten contents and the bodies the two
calls return. -/
theorem crossCall_unique (rnd1 rnd2 : Nat → Fin 62) (body : RawMessage) (i j : Nat)
    (requestData : List (String × Value)) (before after : List Value)
    (message : List (String × Value)) (content : String) (hij : i ≠ j)
    (hu : unmarshalMap body = .ok (some requestData))
    (hm : mapGet "messages" requestData = some (.arr (before ++ .obj message :: after)))
    (hr : mapGet "role" message = some (.str "user"))
    (hc : mapGet "content" message = some (.str content))
    (hmark : matchString content.data = true)
    (hafter : ∀ x ∈ after, isUserMessage x = false) :
    newId rnd1 content i ≠ newId rnd2 content j ∧
      replaceAllString content (newMarker (newId rnd1 content i))
        ≠ replaceAllString content (newMarker (newId rnd2 content j)) ∧
      createUniqueRequestBody rnd1 body i ≠ createUniqueRequestBody rnd2 body j := by
  refine ⟨newId_ne rnd1 rnd2 content i j hij, newContent_ne rnd1 rnd2 content i j hij hmark, ?_⟩
  have hq : ∀ x ∈ after, qualifies x = false := by
    intro x hx
    simp [qualifies, hafter x hx]
  rw [createUniqueRequestBody_messages rnd1 body i requestData _ hu hm,
    createUniqueRequestBody_messages rnd2 body j requestData _ hu hm,
    rewrittenMessages_split rnd1 i before after message content hr hc hq,
    rewrittenMessages_split rnd2 j before after message content hr hc hq]
  simp only [hmark, if_true]
  intro h
  injection h with h
  injection h with h
  rw [encode_obj, encode_obj] at h
  injection h with h
  have hg := congrArg (mapGet (Literal.ofString "messages")) h
  rw [mapGet_encodeMembers, mapGet_encodeMembers,
    mapGet_mapReplace_self _ _ _ _ hm, mapGet_mapReplace_self _ _ _ _ hm] at hg
  simp only [Option.map_some', Option.some.injEq] at hg
  rw [encode_arr, encode_arr] at hg
  injection hg with hg
  rw [encodeList_eq_map, encodeList_eq_map] at hg
  have hk := congrArg (fun l => l.get? before.length) hg
  simp only [List.get?_eq_getElem?, List.map_append, List.map_cons] at hk
  rw [List.getElem?_append_right (by simp), List.getElem?_append_right (by simp)] at hk
  simp only [List.length_map, Nat.sub_self, List.getElem?_cons_zero, Option.some.injEq] at hk
  rw [encode_obj, encode_obj] at hk
  injection hk with hk
  have hcn := congrArg (mapGet (Literal.ofString "content")) hk
  rw [mapGet_encodeMembers, mapGet_encodeMembers, mapGet_mapSet_self, mapGet_mapSet_self] at hcn
  simp only [Option.map_some', Option.some.injEq] at hcn
  rw [encode_str, encode_str] at hcn
  injection hcn with hcn
  exact newContent_ne rnd1 rnd2 content i j hij hmark (Literal.ofString_injective hcn)

/-- Witness of `crossCall_unique`: calls 0 and 1 on `markerBody`, both drawing
the same characters. -/
theorem crossCall_unique_witness :
    createUniqueRequestBody (fun _ => 0) markerBody 0
      ≠ createUniqueRequestBody (fun _ => 0) markerBody 1 :=
  (crossCall_unique (fun _ => 0) (fun _ => 0) markerBody 0 1
    [("messages", .arr [
        .obj [("content", .str "s"), ("role", .str "system")],
        .obj [("content", .str "q [请忽略该行内容，唯一随机任务id：OLD123]"),
              ("role", .str "user")]]),
     ("model", .str "m")]
    [.obj [("content", .str "s"), ("role", .str "system")]] []
    [("content", .str "q [请忽略该行内容，唯一随机任务id：OLD123]"), ("role", .str "user")]
    "q [请忽略该行内容，唯一随机任务id：OLD123]" (by decide) (by decide) (by decide) (by decide)
    (by decide) (by decide) (by simp)).2.2

/-! ## Key order and the round trip through `encoding/json` -/

theorem CodeUnit.rank_injective : Function.Injective CodeUnit.rank := by
  intro a b h
  cases a with
  | scalar c =>
    cases b with
    | scalar d =>
      simp only [CodeUnit.rank] at h
      have hcd : c.toNat = d.toNat := by omega
      have : Char.ofNat c.toNat = Char.ofNat d.toNat := by rw [hcd]
      rw [Char.ofNat_toNat, Char.ofNat_toNat] at this
      rw [this]
    | surrogate n => simp only [CodeUnit.rank] at h; omega
    | byte n => simp only [CodeUnit.rank] at h; omega
  | surrogate m =>
    cases b with
    | scalar d => simp only [CodeUnit.rank] at h; omega
    | surrogate n =>
      simp only [CodeUnit.rank] at h
      have : m = n := by omega
      rw [this]
    | byte n => simp only [CodeUnit.rank] at h; omega
  | byte m =>
    cases b with
    | scalar d => simp only [CodeUnit.rank] at h; omega
    | surrogate n => simp only [CodeUnit.rank] at h; omega
    | byte n =>
      simp only [CodeUnit.rank] at h
      have : m = n := by omega
      rw [this]

theorem sortKey_literal_injective :
    Function.Injective (SortKey.sortKey : Literal → List Nat) :=
  List.map_injective_iff.mpr CodeUnit.rank_injective

theorem sortKey_string_injective :
    Function.Injective (SortKey.sortKey : String → List Nat) :=
  fun _ _ h => Literal.ofString_injective (sortKey_literal_injective h)

theorem sortKey_ofString (k : String) :
    SortKey.sortKey (Literal.ofString k) = SortKey.sortKey k := rfl

theorem mapSet_map {κ1 κ2 α β : Type} [DecidableEq κ1] [SortKey κ1] [DecidableEq κ2]
    [SortKey κ2] (g : κ1 → κ2) (f : α → β) (hg : Function.Injective g)
    (hkey : ∀ k, SortKey.sortKey (g k) = SortKey.sortKey k) (k : κ1) (v : α)
    (m : List (κ1 × α)) :
    (mapSet k v m).map (fun e => (g e.1, f e.2))
      = mapSet (g k) (f v) (m.map (fun e => (g e.1, f e.2))) := by
  induction m with
  | nil => rfl
  | cons e rest ih =>
    obtain ⟨k1, v1⟩ := e
    simp only [mapSet, List.map_cons, hkey]
    by_cases h1 : k = k1
    · simp [h1]
    · have h2 : g k ≠ g k1 := fun e => h1 (hg e)
      simp only [h1, h2, if_false]
      split_ifs
      · rfl
      · rw [List.map_cons, ih]

theorem mapReplace_map {κ1 κ2 α β : Type} [DecidableEq κ1] [DecidableEq κ2]
    (g : κ1 → κ2) (f : α → β) (hg : Function.Injective g) (k : κ1) (v : α)
    (m : List (κ1 × α)) :
    (mapReplace k v m).map (fun e => (g e.1, f e.2))
      = mapReplace (g k) (f v) (m.map (fun e => (g e.1, f e.2))) := by
  induction m with
  | nil => rfl
  | cons e rest ih =>
    obtain ⟨k1, v1⟩ := e
    simp only [mapReplace, List.map_cons]
    by_cases h1 : k = k1
    · simp [h1]
    · have h2 : g k ≠ g k1 := fun e => h1 (hg e)
      simp only [h1, h2, if_false, List.map_cons, ih]

theorem mapGet_map {κ1 κ2 α β : Type} [DecidableEq κ1] [DecidableEq κ2]
    (g : κ1 → κ2) (f : α → β) (hg : Function.Injective g) (k : κ1) (m : List (κ1 × α)) :
    mapGet (g k) (m.map (fun e => (g e.1, f e.2))) = (mapGet k m).map f := by
  induction m with
  | nil => rfl
  | cons e rest ih =>
    obtain ⟨k1, v1⟩ := e
    simp only [mapGet, List.map_cons]
    by_cases h1 : k = k1
    · simp [h1]
    · have h2 : g k ≠ g k1 := fun e => h1 (hg e)
      simp only [h1, h2, if_false, ih]

theorem mem_mapSet {κ α : Type} [DecidableEq κ] [SortKey κ] (k : κ) (v : α)
    (m : List (κ × α)) (b : κ × α) (h : b ∈ mapSet k v m) : b = (k, v) ∨ b ∈ m := by
  induction m with
  | nil => simpa [mapSet] using h
  | cons e rest ih =>
    obtain ⟨k1, v1⟩ := e
    simp only [mapSet] at h
    split_ifs at h
    · rcases List.mem_cons.mp h with h | h
      · exact Or.inl h
      · exact Or.inr (List.mem_cons_of_mem _ h)
    · rcases List.mem_cons.mp h with h | h
      · exact Or.inl h
      · exact Or.inr h
    · rcases List.mem_cons.mp h with h | h
      · exact Or.inr (by rw [h]; exact List.mem_cons_self _ _)
      · rcases ih h with h | h
        · exact Or.inl h
        · exact Or.inr (List.mem_cons_of_mem _ h)

theorem mapSet_sorted {κ α : Type} [DecidableEq κ] [SortKey κ]
    (hinj : Function.Injective (SortKey.sortKey : κ → List Nat)) (k : κ) (v : α)
    (m : List (κ × α))
    (h : m.Pairwise (fun a b => SortKey.sortKey a.1 < SortKey.sortKey b.1)) :
    (mapSet k v m).Pairwise (fun a b => SortKey.sortKey a.1 < SortKey.sortKey b.1) := by
  induction m with
  | nil => simp [mapSet]
  | cons e rest ih =>
    obtain ⟨k1, v1⟩ := e
    rw [List.pairwise_cons] at h
    simp only [mapSet]
    split_ifs with h1 h2
    · subst h1
      rw [List.pairwise_cons]
      exact h
    · rw [List.pairwise_cons]
      refine ⟨?_, List.pairwise_cons.mpr h⟩
      intro b hb
      rcases List.mem_cons.mp hb with rfl | hb
      · exact h2
      · exact lt_trans h2 (h.1 b hb)
    · rw [List.pairwise_cons]
      refine ⟨?_, ih h.2⟩
      have hlt : SortKey.sortKey k1 < SortKey.sortKey k := by
        rcases lt_trichotomy (SortKey.sortKey k) (SortKey.sortKey k1) with h3 | h3 | h3
        · exact absurd h3 h2
        · exact absurd (hinj h3) h1
        · exact h3
      intro b hb
      rcases mem_mapSet k v rest b hb with rfl | hb
      · exact hlt
      · exact h.1 b hb

theorem mapReplace_sorted {κ α : Type} [DecidableEq κ] [SortKey κ] (k : κ) (v : α)
    (m : List (κ × α))
    (h : m.Pairwise (fun a b => SortKey.sortKey a.1 < SortKey.sortKey b.1)) :
    (mapReplace k v m).Pairwise (fun a b => SortKey.sortKey a.1 < SortKey.sortKey b.1) := by
  have hk : (mapReplace k v m).map Prod.fst = m.map Prod.fst := by
    induction m with
    | nil => rfl
    | cons e rest ih =>
      obtain ⟨k1, v1⟩ := e
      simp only [mapReplace]
      split_ifs
      · rfl
      · rw [List.map_cons, List.map_cons, ih (List.Pairwise.of_cons h)]
  have h1 : (m.map Prod.fst).Pairwise (fun a b : κ => SortKey.sortKey a < SortKey.sortKey b) := by
    rw [List.pairwise_map]
    exact h
  rw [← hk, List.pairwise_map] at h1
  exact h1

theorem decodeMembers_sorted (ms : List (Literal × Json)) (acc m : List (String × Value))
    (hacc : acc.Pairwise (fun a b => SortKey.sortKey a.1 < SortKey.sortKey b.1))
    (h : decodeMembers acc ms = some m) :
    m.Pairwise (fun a b => SortKey.sortKey a.1 < SortKey.sortKey b.1) := by
  induction ms generalizing acc with
  | nil =>
    rw [decodeMembers] at h
    injection h with h
    rw [← h]
    exact hacc
  | cons e rest ih =>
    obtain ⟨k, x⟩ := e
    rw [decodeMembers] at h
    cases hd : decode x with
    | none => simp [hd] at h
    | some v =>
      simp only [hd] at h
      exact ih _ (mapSet_sorted sortKey_string_injective k.decode v acc hacc) h

theorem mapSet_append_last {κ α : Type} [DecidableEq κ] [SortKey κ] (k : κ) (v : α)
    (acc : List (κ × α)) (h : ∀ a ∈ acc, SortKey.sortKey a.1 < SortKey.sortKey k) :
    mapSet k v acc = acc ++ [(k, v)] := by
  induction acc with
  | nil => rfl
  | cons e rest ih =>
    obtain ⟨k1, v1⟩ := e
    have h1 : SortKey.sortKey k1 < SortKey.sortKey k := h (k1, v1) (List.mem_cons_self _ _)
    have hne : k ≠ k1 := by
      intro e
      rw [e] at h1
      exact lt_irrefl _ h1
    have hnl : ¬ SortKey.sortKey k < SortKey.sortKey k1 := fun e => lt_asymm h1 e
    simp only [mapSet, hne, if_false, hnl, List.cons_append]
    rw [ih (fun a ha => h a (List.mem_cons_of_mem _ ha))]

theorem canonMembers_encode_sorted (l : List (String × Value)) (acc : List (Literal × Json))
    (hl : l.Pairwise (fun a b => SortKey.sortKey a.1 < SortKey.sortKey b.1))
    (hacc : ∀ a ∈ acc, ∀ b ∈ l, SortKey.sortKey a.1 < SortKey.sortKey b.1) :
    canonMembers acc (encodeMembers l)
      = acc ++ l.map (fun e => (Literal.ofString e.1, canon (encode e.2))) := by
  induction l generalizing acc with
  | nil =>
    rw [encodeMembers, canonMembers]
    simp
  | cons e rest ih =>
    obtain ⟨k, v⟩ := e
    rw [List.pairwise_cons] at hl
    rw [encodeMembers, canonMembers,
      mapSet_append_last (Literal.ofString k) _ acc
        (fun a ha => hacc a ha (k, v) (List.mem_cons_self _ _))]
    rw [ih _ hl.2]
    · simp
    · intro a ha b hb
      rcases List.mem_append.mp ha with ha | ha
      · exact hacc a ha b (List.mem_cons_of_mem _ hb)
      · simp only [List.mem_singleton] at ha
        rw [ha]
        exact hl.1 b hb

mutual
theorem canon_encode_decode : (x : Json) → (v : Value) → decode x = some v →
    numbersSurvive x = true → stringsWellFormed x = true → canon (encode v) = canon x
  | .null, v, h, _, _ => by
    rw [decode] at h
    injection h with h
    rw [← h, encode]
  | .bool b, v, h, _, _ => by
    rw [decode] at h
    injection h with h
    rw [← h, encode]
  | .str s, v, h, _, hw => by
    rw [decode] at h
    rw [stringsWellFormed] at hw
    injection h with h
    rw [← h, encode, Literal.ofString_decode s hw]
  | .num n, v, h, hs, _ => by
    rw [decode] at h
    rw [numbersSurvive, Number.survives] at hs
    cases hp : parseFloat n with
    | none => simp [hp] at h
    | some f =>
      simp only [hp, Option.map_some', Option.some.injEq] at h
      simp only [hp, decide_eq_true_eq] at hs
      rw [← h, encode, canon, canon, hs]
  | .arr xs, v, h, hs, hw => by
    rw [decode] at h
    rw [numbersSurvive] at hs
    rw [stringsWellFormed] at hw
    cases hd : decodeList xs with
    | none => simp [hd] at h
    | some vs =>
      simp only [hd, Option.map_some', Option.some.injEq] at h
      rw [← h, encode, canon, canon, canon_encode_decode_list xs vs hd hs hw]
  | .obj ms, v, h, hs, hw => by
    rw [decode] at h
    rw [numbersSurvive] at hs
    rw [stringsWellFormed] at hw
    cases hd : decodeMembers [] ms with
    | none => simp [hd] at h
    | some m =>
      simp only [hd, Option.map_some', Option.some.injEq] at h
      have hsorted := decodeMembers_sorted ms [] m List.Pairwise.nil hd
      have hc := canon_encode_decode_members ms [] m hd hs hw
      rw [← h, encode, canon, canon, canonMembers_encode_sorted m [] hsorted (by simp)]
      rw [List.nil_append, hc]
      rfl
theorem canon_encode_decode_list : (xs : List Json) → (vs : List Value) →
    decodeList xs = some vs → numbersSurviveList xs = true →
    stringsWellFormedList xs = true → canonList (encodeList vs) = canonList xs
  | [], vs, h, _, _ => by
    rw [decodeList] at h
    injection h with h
    rw [← h, encodeList]
  | x :: xs, vs, h, hs, hw => by
    rw [decodeList] at h
    rw [numbersSurviveList, Bool.and_eq_true] at hs
    rw [stringsWellFormedList, Bool.and_eq_true] at hw
    cases hd : decode x with
    | none => simp [hd] at h
    | some v =>
      cases hl : decodeList xs with
      | none => simp [hd, hl] at h
      | some vs1 =>
        simp only [hd, hl, Option.some.injEq] at h
        rw [← h, encodeList, canonList, canonList, canon_encode_decode x v hd hs.1 hw.1,
          canon_encode_decode_list xs vs1 hl hs.2 hw.2]
theorem canon_encode_decode_members : (ms : List (Literal × Json)) →
    (acc m : List (String × Value)) → decodeMembers acc ms = some m →
    numbersSurviveMembers ms = true → stringsWellFormedMembers ms = true →
    m.map (fun e => (Literal.ofString e.1, canon (encode e.2)))
      = canonMembers (acc.map (fun e => (Literal.ofString e.1, canon (encode e.2)))) ms
  | [], acc, m, h, _, _ => by
    rw [decodeMembers] at h
    injection h with h
    rw [← h, canonMembers]
  | (k, x) :: ms, acc, m, h, hs, hw => by
    rw [decodeMembers] at h
    rw [numbersSurviveMembers, Bool.and_eq_true] at hs
    rw [stringsWellFormedMembers, Bool.and_eq_true, Bool.and_eq_true] at hw
    cases hd : decode x with
    | none => simp [hd] at h
    | some v =>
      simp only [hd] at h
      rw [canon_encode_decode_members ms (mapSet k.decode v acc) m h hs.2 hw.2,
        mapSet_map Literal.ofString (fun v => canon (encode v)) Literal.ofString_injective
          sortKey_ofString k.decode v acc,
        canonMembers, canon_encode_decode x v hd hs.1 hw.1.2,
        Literal.ofString_decode k hw.1.1]
end

/-! ## Re-encoding a body that has no marker -/

/-- Claim C8 fails on a number beyond float64 precision: with no marker anywhere,
the body that carries `"seed": 10000000000000000001` comes back with `"seed"`
equal to 10000000000000000000, a different JSON value. -/
theorem reencode_number_counterexample :
    createUniqueRequestBody (fun _ => 0) bigNumberBody 0 =
        .ok (.doc (.obj [
          member "messages" (.arr [.obj [member "content" (jstr "hi"),
                                         member "role" (jstr "user")]]),
          member "seed" (.num ⟨false, 1, 19⟩)])) ∧
      canon (.obj [
          member "messages" (.arr [.obj [member "content" (jstr "hi"),
                                         member "role" (jstr "user")]]),
          member "seed" (.num ⟨false, 1, 19⟩)])
        ≠ canon (.obj [
          member "messages" (.arr [.obj [member "content" (jstr "hi"),
                                         member "role" (jstr "user")]]),
          member "seed" (.num ⟨false, 10000000000000000001, 0⟩)]) := by
  decide

/-- Strings are not kept either when a literal is ill formed: with no marker
anywhere, the body whose `"user"` is the letter a followed by the escape of the
unpaired surrogate D800 comes back with `"user"` equal to the letter a followed
by U+FFFD, a different JSON value. -/
theorem reencode_string_evaluated :
    createUniqueRequestBody (fun _ => 0) surrogateBody 0 =
        .ok (.doc (.obj [
          member "messages" (.arr [.obj [member "content" (jstr "hi"),
                                         member "role" (jstr "user")]]),
          member "user" (.str [.scalar 'a', .scalar (Char.ofNat 0xFFFD)])])) ∧
      canon (.obj [
          member "messages" (.arr [.obj [member "content" (jstr "hi"),
                                         member "role" (jstr "user")]]),
          member "user" (.str [.scalar 'a', .scalar (Char.ofNat 0xFFFD)])])
        ≠ canon (.obj [
          member "messages" (.arr [.obj [member "content" (jstr "hi"),
                                         member "role" (jstr "user")]]),
          member "user" (.str [.scalar 'a', .surrogate 0xD800])]) := by
  decide

theorem rewrittenMessages_no_marker (rnd : Nat → Fin 62) (i : Nat) (messages : List Value)
    (hno : ∀ m ∈ messages, ∀ c, stringContent m = some c → matchString c.data = false) :
    rewrittenMessages rnd i messages = messages := by
  rcases split_last_qualifying messages with hnone | ⟨before, mq, after, rfl, hq, hafter⟩
  · exact rewrittenMessages_none rnd i messages hnone
  · obtain ⟨message, content, rfl, hr, hc⟩ := (qualifies_iff mq).mp hq
    have hsc : stringContent (.obj message) = some content := by
      simp [stringContent, hc]
    have hfalse := hno (.obj message) (by simp) content hsc
    rw [rewrittenMessages_split rnd i before after message content hr hc hafter]
    simp [hfalse]

theorem decode_of_unmarshalMap (members : List (Literal × Json))
    (requestData : List (String × Value))
    (hu : unmarshalMap (.doc (.obj members)) = .ok (some requestData)) :
    decodeMembers [] members = some requestData ∧
      decode (.obj members) = some (.obj requestData) := by
  simp only [unmarshalMap] at hu
  cases hdm : decodeMembers [] members with
  | none => simp [hdm] at hu
  | some m =>
    simp only [hdm, Except.ok.injEq, Option.some.injEq] at hu
    rw [decode, hdm, hu]
    exact ⟨rfl, rfl⟩

/-- Claim C8, as amended: when no message of the body holds a marker, the body
returned (no error) is the re-encoding of the decoded body, and it denotes the
same JSON value as the original body provided every number of the body survives
the float64 round trip (as integers up to 2^53 and short decimals do) and every
string literal and member name of the body is well formed (no escape of an
unpaired surrogate, no invalid UTF-8). -/
theorem createUniqueRequestBody_noop (rnd : Nat → Fin 62) (members : List (Literal × Json))
    (i : Nat) (requestData : List (String × Value)) (messages : List Value)
    (hu : unmarshalMap (.doc (.obj members)) = .ok (some requestData))
    (hm : mapGet "messages" requestData = some (.arr messages))
    (hno : ∀ m ∈ messages, ∀ c, stringContent m = some c → matchString c.data = false)
    (hnum : numbersSurvive (.obj members) = true)
    (hwf : stringsWellFormed (.obj members) = true) :
    createUniqueRequestBody rnd (.doc (.obj members)) i
        = .ok (.doc (encode (.obj requestData))) ∧
      canon (encode (.obj requestData)) = canon (.obj members) := by
  constructor
  · rw [createUniqueRequestBody_messages rnd _ i requestData messages hu hm,
      rewrittenMessages_no_marker rnd i messages hno, mapReplace_same _ _ _ hm]
  · exact canon_encode_decode _ _ (decode_of_unmarshalMap members requestData hu).2 hnum hwf

/-- Witness of `createUniqueRequestBody_noop`: `plainBody`, with the numbers 0.7
and 100, comes back as the same JSON value. -/
theorem createUniqueRequestBody_noop_witness :
    ∃ out, createUniqueRequestBody (fun _ => 0) plainBody 0 = .ok (.doc out) ∧
      canon out = canon (.obj [member "temperature" (.num ⟨false, 7, -1⟩),
        member "max_tokens" (.num ⟨false, 100, 0⟩),
        member "messages" (.arr [.obj [member "role" (jstr "user"),
                                       member "content" (jstr "hi")]])]) :=
  ⟨_, createUniqueRequestBody_noop (fun _ => 0)
    [member "temperature" (.num ⟨false, 7, -1⟩), member "max_tokens" (.num ⟨false, 100, 0⟩),
     member "messages" (.arr [.obj [member "role" (jstr "user"),
                                    member "content" (jstr "hi")]])]
    0
    [("max_tokens", .num ⟨false, 7036874417766400, -46⟩),
     ("messages", .arr [.obj [("content", .str "hi"), ("role", .str "user")]]),
     ("temperature", .num ⟨false, 6305039478318694, -53⟩)]
    [.obj [("content", .str "hi"), ("role", .str "user")]]
    (by decide) (by decide) (by decide) (by decide) (by decide)⟩

/-! ## Key order of decoded values -/

theorem keysSortedList_iff (xs : List Value) :
    keysSortedList xs ↔ ∀ x ∈ xs, keysSorted x := by
  induction xs with
  | nil => simp [keysSortedList]
  | cons x rest ih => simp [keysSortedList, ih]

theorem keysSortedMembers_iff (ms : List (String × Value)) :
    keysSortedMembers ms ↔ ∀ e ∈ ms, keysSorted e.2 := by
  induction ms with
  | nil => simp [keysSortedMembers]
  | cons e rest ih =>
    obtain ⟨k, v⟩ := e
    simp [keysSortedMembers, ih]

theorem mapGet_mem {κ α : Type} [DecidableEq κ] (k : κ) (v : α) (m : List (κ × α))
    (h : mapGet k m = some v) : (k, v) ∈ m := by
  induction m with
  | nil => simp [mapGet] at h
  | cons e rest ih =>
    obtain ⟨k1, v1⟩ := e
    simp only [mapGet] at h
    split_ifs at h with h1
    · injection h with h
      rw [h1, h]
      exact List.mem_cons_self _ _
    · exact List.mem_cons_of_mem _ (ih h)

mutual
theorem decode_keysSorted : (x : Json) → (v : Value) → decode x = some v → keysSorted v
  | .null, v, h => by
    rw [decode] at h
    injection h with h
    rw [← h, keysSorted]
    all_goals simp
  | .bool b, v, h => by
    rw [decode] at h
    injection h with h
    rw [← h, keysSorted]
    all_goals simp
  | .str s, v, h => by
    rw [decode] at h
    injection h with h
    rw [← h, keysSorted]
    all_goals simp
  | .num n, v, h => by
    rw [decode] at h
    cases hp : parseFloat n with
    | none => simp [hp] at h
    | some f =>
      simp only [hp, Option.map_some', Option.some.injEq] at h
      rw [← h, keysSorted]
      all_goals simp
  | .arr xs, v, h => by
    rw [decode] at h
    cases hd : decodeList xs with
    | none => simp [hd] at h
    | some vs =>
      simp only [hd, Option.map_some', Option.some.injEq] at h
      rw [← h, keysSorted]
      exact decodeList_keysSorted xs vs hd
  | .obj ms, v, h => by
    rw [decode] at h
    cases hd : decodeMembers [] ms with
    | none => simp [hd] at h
    | some m =>
      simp only [hd, Option.map_some', Option.some.injEq] at h
      rw [← h, keysSorted]
      exact ⟨decodeMembers_sorted ms [] m List.Pairwise.nil hd,
        decodeMembers_keysSorted ms [] m hd (by simp [keysSortedMembers])⟩
theorem decodeList_keysSorted : (xs : List Json) → (vs : List Value) →
    decodeList xs = some vs → keysSortedList vs
  | [], vs, h => by
    rw [decodeList] at h
    injection h with h
    rw [← h, keysSortedList]
    trivial
  | x :: xs, vs, h => by
    rw [decodeList] at h
    cases hd : decode x with
    | none => simp [hd] at h
    | some v =>
      cases hl : decodeList xs with
      | none => simp [hd, hl] at h
      | some vs1 =>
        simp only [hd, hl, Option.some.injEq] at h
        rw [← h, keysSortedList]
        exact ⟨decode_keysSorted x v hd, decodeList_keysSorted xs vs1 hl⟩
theorem decodeMembers_keysSorted : (ms : List (Literal × Json)) →
    (acc m : List (String × Value)) → decodeMembers acc ms = some m →
    keysSortedMembers acc → keysSortedMembers m
  | [], acc, m, h, hacc => by
    rw [decodeMembers] at h
    injection h with h
    rw [← h]
    exact hacc
  | (k, x) :: ms, acc, m, h, hacc => by
    rw [decodeMembers] at h
    cases hd : decode x with
    | none => simp [hd] at h
    | some v =>
      simp only [hd] at h
      refine decodeMembers_keysSorted ms (mapSet k.decode v acc) m h ?_
      rw [keysSortedMembers_iff] at hacc ⊢
      intro e he
      rcases mem_mapSet k.decode v acc e he with rfl | he
      · exact decode_keysSorted x v hd
      · exact hacc e he
end

theorem canon_encode_obj (m : List (String × Value))
    (hs : m.Pairwise (fun a b => SortKey.sortKey a.1 < SortKey.sortKey b.1)) :
    canon (encode (.obj m))
      = .obj (m.map (fun e => (Literal.ofString e.1, canon (encode e.2)))) := by
  rw [encode, canon, canonMembers_encode_sorted m [] hs (by simp), List.nil_append]

theorem canon_encode_arr (l : List Value) :
    canon (encode (.arr l)) = .arr (l.map (fun v => canon (encode v))) := by
  rw [encode, canon]
  congr 1
  induction l with
  | nil => rw [encodeList, canonList]; rfl
  | cons v rest ih => rw [encodeList, canonList, ih]; rfl

theorem canon_encode_str (s : String) : canon (encode (.str s)) = jstr s := by
  rw [encode, canon]
  rfl

/-! ## The body with a rewritten marker -/

theorem createUniqueRequestBody_rewrite (rnd : Nat → Fin 62) (body : RawMessage) (i : Nat)
    (requestData : List (String × Value)) (before after : List Value)
    (message : List (String × Value)) (content : String)
    (hu : unmarshalMap body = .ok (some requestData))
    (hm : mapGet "messages" requestData = some (.arr (before ++ .obj message :: after)))
    (hr : mapGet "role" message = some (.str "user"))
    (hc : mapGet "content" message = some (.str content))
    (hmark : matchString content.data = true)
    (hafter : ∀ x ∈ after, isUserMessage x = false) :
    createUniqueRequestBody rnd body i =
      .ok (.doc (encode (.obj (mapReplace "messages"
        (.arr (before ++ .obj (mapSet "content"
          (.str (replaceAllString content (newMarker (newId rnd content i)))) message)
          :: after)) requestData)))) := by
  have hq : ∀ x ∈ after, qualifies x = false := by
    intro x hx
    simp [qualifies, hafter x hx]
  rw [createUniqueRequestBody_messages rnd body i requestData _ hu hm,
    rewrittenMessages_split rnd i before after message content hr hc hq]
  simp only [hmark, if_true]

theorem canon_rewritten (members : List (Literal × Json))
    (requestData : List (String × Value)) (before after : List Value)
    (message : List (String × Value)) (content newContent : String)
    (hu : unmarshalMap (.doc (.obj members)) = .ok (some requestData))
    (hm : mapGet "messages" requestData = some (.arr (before ++ .obj message :: after)))
    (hr : mapGet "role" message = some (.str "user"))
    (hc : mapGet "content" message = some (.str content))
    (hnum : numbersSurvive (.obj members) = true)
    (hwf : stringsWellFormed (.obj members) = true) :
    ∃ (cm : List (Literal × Json)) (cb ca : List Json) (cmsg : List (Literal × Json)),
      canon (.obj members) = .obj cm ∧
      mapGet (Literal.ofString "messages") cm = some (.arr (cb ++ .obj cmsg :: ca)) ∧
      cb.length = before.length ∧ ca.length = after.length ∧
      mapGet (Literal.ofString "role") cmsg = some (jstr "user") ∧
      mapGet (Literal.ofString "content") cmsg = some (jstr content) ∧
      canon (encode (.obj (mapReplace "messages"
          (.arr (before ++ .obj (mapSet "content" (.str newContent) message) :: after))
          requestData)))
        = .obj (mapReplace (Literal.ofString "messages")
            (.arr (cb ++ .obj (mapSet (Literal.ofString "content") (jstr newContent) cmsg)
              :: ca)) cm) := by
  have hd := (decode_of_unmarshalMap members requestData hu).2
  have hks := decode_keysSorted _ _ hd
  rw [keysSorted] at hks
  obtain ⟨hsrd, hmrd⟩ := hks
  have hmsgs : keysSorted (.arr (before ++ .obj message :: after)) :=
    (keysSortedMembers_iff requestData).mp hmrd _ (mapGet_mem _ _ _ hm)
  rw [keysSorted, keysSortedList_iff] at hmsgs
  have hmsg : keysSorted (.obj message) := hmsgs _ (by simp)
  rw [keysSorted] at hmsg
  have hsm := hmsg.1
  have hinj := Literal.ofString_injective
  refine ⟨requestData.map (fun e => (Literal.ofString e.1, canon (encode e.2))),
    before.map (fun v => canon (encode v)), after.map (fun v => canon (encode v)),
    message.map (fun e => (Literal.ofString e.1, canon (encode e.2))), ?_, ?_, ?_, ?_, ?_, ?_, ?_⟩
  · rw [← canon_encode_decode _ _ hd hnum hwf, canon_encode_obj requestData hsrd]
  · rw [mapGet_map Literal.ofString (fun v => canon (encode v)) hinj, hm, Option.map_some',
      canon_encode_arr, List.map_append, List.map_cons, canon_encode_obj message hsm]
  · rw [List.length_map]
  · rw [List.length_map]
  · rw [mapGet_map Literal.ofString (fun v => canon (encode v)) hinj, hr, Option.map_some',
      canon_encode_str]
  · rw [mapGet_map Literal.ofString (fun v => canon (encode v)) hinj, hc, Option.map_some',
      canon_encode_str]
  · rw [canon_encode_obj _ (mapReplace_sorted _ _ _ hsrd),
      mapReplace_map Literal.ofString (fun v => canon (encode v)) hinj,
      canon_encode_arr, List.map_append, List.map_cons,
      canon_encode_obj _ (mapSet_sorted sortKey_string_injective _ _ _ hsm),
      mapSet_map Literal.ofString (fun v => canon (encode v)) hinj sortKey_ofString,
      canon_encode_str]

/-- Claim C4 fails on a number beyond float64 precision: call 2 on the body whose
user message ends in a marker and that carries `"seed": 10000000000000000001`
returns the marker rewritten and `"seed"` equal to 10000000000000000000, so a
field other than the content has changed. -/
theorem rewrite_changes_number_counterexample :
    markerSeedBody =
        .doc (.obj [
          member "messages" (.arr [.obj [
            member "content" (jstr "q [请忽略该行内容，唯一随机任务id：OLD123]"),
            member "role" (jstr "user")]]),
          member "seed" (.num ⟨false, 10000000000000000001, 0⟩)]) ∧
      createUniqueRequestBody (fun _ => 0) markerSeedBody 2 =
        .ok (.doc (.obj [
          member "messages" (.arr [.obj [
            member "content"
              (jstr "q [请忽略该行内容，唯一随机任务id：AAAAAAAAAAAAAAAAAAAAAAAAAAAA_C3]"),
            member "role" (jstr "user")]]),
          member "seed" (.num ⟨false, 1, 19⟩)])) ∧
      canon (.num ⟨false, 1, 19⟩) ≠ canon (.num ⟨false, 10000000000000000001, 0⟩) := by
  decide

/-- Claim C4, as amended: when the last user-role message of the body has a string
content with a marker, call `i` returns the body in which the marker of that
content holds a new token, `max(16, n/2)` characters of the 62-character
alphanumeric alphabet (`n` the length of the old content in bytes) followed by
`_C<i+1>`; the body returned is the encoding of the decoded body with that one
content replaced, and when every number of the body survives the float64 round
trip and every string literal and member name is well formed, the JSON value of
the body returned is the JSON value of the original body with that one content
replaced: every other message, every other field of the message and every other
field of the body is unchanged. -/
theorem createUniqueRequestBody_marker (rnd : Nat → Fin 62) (members : List (Literal × Json))
    (i : Nat) (requestData : List (String × Value)) (before after : List Value)
    (message : List (String × Value)) (content : String)
    (hu : unmarshalMap (.doc (.obj members)) = .ok (some requestData))
    (hm : mapGet "messages" requestData = some (.arr (before ++ .obj message :: after)))
    (hr : mapGet "role" message = some (.str "user"))
    (hc : mapGet "content" message = some (.str content))
    (hmark : matchString content.data = true)
    (hafter : ∀ x ∈ after, isUserMessage x = false) :
    ∃ (rand : List Char) (token newContent : String) (message1 : List (String × Value))
      (requestData1 : List (String × Value)),
      rand.length = Nat.max 16 (goLen content / 2) ∧
      (∀ c ∈ rand, c ∈ chars.data) ∧
      (chars.data.length = 62 ∧ chars.data.Nodup ∧ ∀ c ∈ chars.data, c.isAlphanum = true) ∧
      token = String.mk (rand ++ "_C".data ++ (Nat.repr (i + 1)).data) ∧
      16 ≤ token.length ∧
      (i = 2 → "_C3".data <:+ token.data) ∧
      newContent = replaceAllString content (markerHead ++ token ++ "]") ∧
      (∀ pre tok post, content.data = pre ++ markerHead.data ++ tok ++ ']' :: post →
        tok ≠ [] → ']' ∉ tok →
        (∀ k, k < pre.length → matchAt (content.data.drop k) = none) →
        newContent.data = pre ++ (markerHead.data ++ token.data ++ [']'])
          ++ (replaceAllString (String.mk post) (markerHead ++ token ++ "]")).data) ∧
      (∀ s : String, matchString s.data = false →
        replaceAllString s (markerHead ++ token ++ "]") = s) ∧
      message1 = mapSet "content" (.str newContent) message ∧
      mapGet "content" message1 = some (.str newContent) ∧
      (∀ k, k ≠ "content" → mapGet k message1 = mapGet k message) ∧
      requestData1 =
        mapReplace "messages" (.arr (before ++ .obj message1 :: after)) requestData ∧
      mapGet "messages" requestData1 = some (.arr (before ++ .obj message1 :: after)) ∧
      (∀ k, k ≠ "messages" → mapGet k requestData1 = mapGet k requestData) ∧
      createUniqueRequestBody rnd (.doc (.obj members)) i
        = .ok (.doc (encode (.obj requestData1))) ∧
      (numbersSurvive (.obj members) = true → stringsWellFormed (.obj members) = true →
        ∃ (cm : List (Literal × Json)) (cb ca : List Json) (cmsg : List (Literal × Json)),
          canon (.obj members) = .obj cm ∧
          mapGet (Literal.ofString "messages") cm = some (.arr (cb ++ .obj cmsg :: ca)) ∧
          cb.length = before.length ∧ ca.length = after.length ∧
          mapGet (Literal.ofString "role") cmsg = some (jstr "user") ∧
          mapGet (Literal.ofString "content") cmsg = some (jstr content) ∧
          canon (encode (.obj requestData1))
            = .obj (mapReplace (Literal.ofString "messages")
                (.arr (cb ++ .obj (mapSet (Literal.ofString "content") (jstr newContent) cmsg)
                  :: ca)) cm)) := by
  have hid := newId_eq rnd content i
  have hlen := generateUniqueId_length rnd (goLen content)
  refine ⟨(generateUniqueId rnd (goLen content)).data, newId rnd content i,
    replaceAllString content (newMarker (newId rnd content i)), _, _,
    hlen, generateUniqueId_mem rnd _, ⟨by decide, by decide, by decide⟩, hid, ?_, ?_, rfl, ?_,
    ?_, rfl, mapGet_mapSet_self _ _ _, fun k hk => mapGet_mapSet_ne _ _ _ _ hk, rfl,
    mapGet_mapReplace_self _ _ _ _ hm, fun k hk => mapGet_mapReplace_ne _ _ _ _ hk,
    createUniqueRequestBody_rewrite rnd _ i requestData before after message content hu hm hr
      hc hmark hafter,
    fun hnum hwf => canon_rewritten members requestData before after message content _ hu hm
      hr hc hnum hwf⟩
  · have h16 : 16 ≤ (generateUniqueId rnd (goLen content)).data.length := by
      rw [hlen]
      exact Nat.le_max_left _ _
    rw [hid]
    simp only [String.length, List.length_append]
    omega
  · intro h2
    subst h2
    rw [hid]
    exact ⟨(generateUniqueId rnd (goLen content)).data, by
      simp only [List.append_assoc]
      rfl⟩
  · intro pre tok post hd hne htok hfirst
    have := replaceAllString_marker content (newMarker (newId rnd content i)) pre tok post hd
      hne htok hfirst
    rw [this]
    simp [newMarker, String.data_append]
  · intro s hs
    exact replaceAllString_no_match s _ hs

/-- Witness of `createUniqueRequestBody_marker`: call 2 on `markerBody`, whose
strings are well formed and which holds no number. -/
theorem createUniqueRequestBody_marker_witness :
    ∃ (token : String) (out : Json) (cm : List (Literal × Json)) (cb ca : List Json)
      (cmsg : List (Literal × Json)),
      16 ≤ token.length ∧ "_C3".data <:+ token.data ∧
      createUniqueRequestBody (fun _ => 0) markerBody 2 = .ok (.doc out) ∧
      canon (.obj [member "model" (jstr "m"), member "messages" (.arr [
        .obj [member "role" (jstr "system"), member "content" (jstr "s")],
        .obj [member "role" (jstr "user"),
              member "content" (jstr "q [请忽略该行内容，唯一随机任务id：OLD123]")]])])
        = .obj cm ∧
      mapGet (Literal.ofString "messages") cm = some (.arr (cb ++ .obj cmsg :: ca)) ∧
      cb.length = 1 ∧ ca.length = 0 ∧
      mapGet (Literal.ofString "content") cmsg
        = some (jstr "q [请忽略该行内容，唯一随机任务id：OLD123]") ∧
      canon out = .obj (mapReplace (Literal.ofString "messages")
        (.arr (cb ++ .obj (mapSet (Literal.ofString "content")
          (jstr (replaceAllString "q [请忽略该行内容，唯一随机任务id：OLD123]"
            (markerHead ++ token ++ "]"))) cmsg) :: ca)) cm) := by
  obtain ⟨rand, token, newContent, message1, requestData1, _, _, _, _, h16, h3, hnc, _, _, _,
      _, _, _, _, _, hres, hcanon⟩ :=
    createUniqueRequestBody_marker (fun _ => 0)
      [member "model" (jstr "m"), member "messages" (.arr [
        .obj [member "role" (jstr "system"), member "content" (jstr "s")],
        .obj [member "role" (jstr "user"),
              member "content" (jstr "q [请忽略该行内容，唯一随机任务id：OLD123]")]])]
      2
      [("messages", .arr [
          .obj [("content", .str "s"), ("role", .str "system")],
          .obj [("content", .str "q [请忽略该行内容，唯一随机任务id：OLD123]"),
                ("role", .str "user")]]),
       ("model", .str "m")]
      [.obj [("content", .str "s"), ("role", .str "system")]] []
      [("content", .str "q [请忽略该行内容，唯一随机任务id：OLD123]"), ("role", .str "user")]
      "q [请忽略该行内容，唯一随机任务id：OLD123]" (by decide) (by decide) (by decide) (by decide)
      (by decide) (by simp)
  obtain ⟨cm, cb, ca, cmsg, h1, h2, hb, ha, _, h5, h6⟩ := hcanon (by decide) (by decide)
  rw [hnc] at h6
  exact ⟨token, _, cm, cb, ca, cmsg, h16, h3 rfl, hres, h1, h2, hb, ha, h5, h6⟩

/-- The spec's example, evaluated: call 2 with all draws 0 turns the marker of
`markerBody` into 28 letters `A` followed by `_C3` (the content has 57 bytes). -/
theorem createUniqueRequestBody_example :
    createUniqueRequestBody (fun _ => 0) markerBody 2 =
      .ok (.doc (.obj [
        member "messages" (.arr [
          .obj [member "content" (jstr "s"), member "role" (jstr "system")],
          .obj [member "content"
                  (jstr "q [请忽略该行内容，唯一随机任务id：AAAAAAAAAAAAAAAAAAAAAAAAAAAA_C3]"),
                member "role" (jstr "user")]]),
        member "model" (jstr "m")])) := by
  decide

end SikongAI
